import Mathlib

/-!
Verification development for the data-transfer pipeline
(sender pyfast_send_aftername_v2.py, receiver pyfast_recv_v2.py,
trigger bridge run_senders_from_config.py).

The Python sources are shallowly embedded: byte streams are lists of
naturals (each a byte value), strings are Lean strings, file-system and
socket effects are made explicit as data.  Every definition is a direct
translation of the corresponding Python function; the line numbers in the
doc comments refer to the source files.
-/

namespace DataTransfer

/-- A byte on the wire.  Values are always below 256 where produced. -/
abbrev Byte := Nat

/-- Receiver read chunk, pyfast_recv_v2.py line 7: CHUNK = 1 << 20. -/
def CHUNK : Nat := 1 <<< 20

/-- Sender sendfile chunk, pyfast_send_aftername_v2.py line 248:
chunk_size = 8 << 20 (8 MiB). -/
def SEND_CHUNK : Nat := 8 <<< 20

/-- pyfast_recv_v2.py line 45. -/
def MAX_NAME : Nat := 4096

/-- pyfast_recv_v2.py line 46. -/
def MAX_DEST : Nat := 4096

/-- pyfast_recv_v2.py line 47. -/
def MAX_DRAGONFLY_KEY : Nat := 256

/-- pyfast_recv_v2.py line 48. -/
def MAX_SIDE : Nat := 64

/-- struct.pack "!Q" n: the 8-byte big-endian encoding of an unsigned
64-bit integer (sender side, pyfast_send_aftername_v2.py lines 224-243). -/
def packU64 (n : Nat) : List Byte :=
  [n / 256 ^ 7 % 256, n / 256 ^ 6 % 256, n / 256 ^ 5 % 256, n / 256 ^ 4 % 256,
   n / 256 ^ 3 % 256, n / 256 ^ 2 % 256, n / 256 % 256, n % 256]

/-- recvall (pyfast_recv_v2.py lines 32-39): read exactly n bytes from the
socket stream, failing with ConnectionError when the stream ends first. -/
def recvall (n : Nat) (s : List Byte) : Except String (List Byte × List Byte) :=
  if n ≤ s.length then .ok (s.take n, s.drop n) else .error "socket closed"

/-- read_u64 (pyfast_recv_v2.py lines 41-43): read 8 bytes and unpack
them as a big-endian unsigned 64-bit integer. -/
def read_u64 (s : List Byte) : Except String (Nat × List Byte) :=
  match recvall 8 s with
  | .error e => .error e
  | .ok (b, rest) => .ok (b.foldl (fun acc x => acc * 256 + x) 0, rest)

/-- One decoded file record header (fields of §4.A items 1-9; the payload
is read separately).  Fields are kept as raw byte lists. -/
structure WireRecord where
  name : List Byte
  dest : List Byte
  dragonfly_key : List Byte
  side : List Byte
  size : Nat
deriving DecidableEq, Repr

/-- Read one length-prefixed field: read_u64 for the length, enforce the
cap (raise ValueError when above it, pyfast_recv_v2.py lines 72-93),
then read that many bytes. -/
def readField (maxLen : Nat) (err : String) (s : List Byte) :
    Except String (List Byte × List Byte) :=
  match read_u64 s with
  | .error e => .error e
  | .ok (n, s₁) => if n > maxLen then .error err else recvall n s₁

/-- Decode one file-record header off the stream, enforcing each cap
before the next field is read (pyfast_recv_v2.py lines 64-96). -/
def parseHeader (s : List Byte) : Except String (WireRecord × List Byte) :=
  match readField MAX_NAME "name too long" s with
  | .error e => .error e
  | .ok (name, s₁) =>
    match readField MAX_DEST "dest too long" s₁ with
    | .error e => .error e
    | .ok (dest, s₂) =>
      match readField MAX_DRAGONFLY_KEY "dragonfly_key too long" s₂ with
      | .error e => .error e
      | .ok (key, s₃) =>
        match readField MAX_SIDE "side too long" s₃ with
        | .error e => .error e
        | .ok (side, s₄) =>
          match read_u64 s₄ with
          | .error e => .error e
          | .ok (size, s₅) => .ok (⟨name, dest, key, side, size⟩, s₅)

/-- The header bytes put on the socket by send_file
(pyfast_send_aftername_v2.py lines 222-243): length-prefixed name, dest
path, dragonfly_key and side, then the payload size. -/
def encodeHeader (r : WireRecord) : List Byte :=
  packU64 r.name.length ++ r.name ++
  packU64 r.dest.length ++ r.dest ++
  packU64 r.dragonfly_key.length ++ r.dragonfly_key ++
  packU64 r.side.length ++ r.side ++
  packU64 r.size

/-! ### Python path helpers (posixpath semantics, os.sep = '/') -/

/-- str.split of a character list on '/', the separator of posixpath. -/
def splitSlashChars : List Char → List Char → List (List Char)
  | [], cur => [cur.reverse]
  | c :: rest, cur =>
    if c = '/' then cur.reverse :: splitSlashChars rest []
    else splitSlashChars rest (c :: cur)

/-- norm.split(os.sep) on a string. -/
def splitSlash (s : String) : List String :=
  (splitSlashChars s.data []).map String.mk

/-- os.sep.join(comps). -/
def joinSlash (l : List String) : String :=
  String.mk (List.intercalate ['/'] (l.map String.data))

/-- String prefix test on the underlying characters
(python str.startswith). -/
def strStartsWith (s pre : String) : Bool :=
  pre.data.isPrefixOf s.data

/-- String suffix test on the underlying characters
(python str.endswith). -/
def strEndsWith (s suf : String) : Bool :=
  suf.data.isSuffixOf s.data

/-- os.path.join for two components (posixpath.join): an absolute second
part replaces the first; otherwise a single separator is inserted unless
the first part is empty or already ends with one. -/
def pyJoin (a b : String) : String :=
  if strStartsWith b "/" then b
  else if a = "" ∨ strEndsWith a "/" then a ++ b
  else a ++ "/" ++ b

/-- Component processing loop of posixpath.normpath: empty and "."
components are dropped; ".." pops the previous component except at the
root of an absolute path, at the start of a relative path, or after a
kept "..".  The accumulator is kept reversed. -/
def pyNormComps (initialSlashes : Nat) : List String → List String → List String
  | stack, [] => stack.reverse
  | stack, comp :: rest =>
    if comp = "" ∨ comp = "." then pyNormComps initialSlashes stack rest
    else if comp ≠ ".." ∨ (initialSlashes = 0 ∧ stack = []) ∨ stack.head? = some ".." then
      pyNormComps initialSlashes (comp :: stack) rest
    else
      match stack with
      | [] => pyNormComps initialSlashes [] rest
      | _ :: t => pyNormComps initialSlashes t rest

/-- os.path.normpath (posixpath.normpath): collapse separators, drop "."
components, resolve ".." components, preserving one or exactly two
leading slashes. -/
def pyNormPath (p : String) : String :=
  if p = "" then "." else
  let initialSlashes : Nat :=
    if strStartsWith p "/" then
      (if strStartsWith p "//" ∧ ¬ strStartsWith p "///" then 2 else 1)
    else 0
  let newComps := pyNormComps initialSlashes [] (splitSlash p)
  let path := String.mk (List.replicate initialSlashes '/') ++ joinSlash newComps
  if path = "" then "." else path

/-- os.path.basename: everything after the last separator. -/
def pyBasename (p : String) : String :=
  (splitSlash p).getLastD ""

/-- Strip trailing '/' characters (str.rstrip(sep)). -/
def stripTrailingSlashes (s : String) : String :=
  String.mk (s.data.reverse.dropWhile (· = '/')).reverse

/-- os.path.dirname: everything up to the last separator, with trailing
separators stripped unless the head consists only of separators. -/
def pyDirname (p : String) : String :=
  match splitSlash p with
  | [] => ""
  | [_] => ""
  | comps =>
    let head := joinSlash comps.dropLast ++ "/"
    if head.data.all (· = '/') then head else stripTrailingSlashes head

/-! ### Sender payload loop (send_file, pyfast_send_aftername_v2.py 245-321)

The loop state is (offset, retry_count); acc is the byte transcript
already written to the socket.  On a blocking socket, socket.sendfile
transmits exactly the requested count, so the modelled sendfile returns
to_send.  The in-loop completeness check `if offset != size: raise`
(line 259) runs before `offset += sent` (line 287), so on every
iteration entered with offset < size it raises, and control moves to the
except-handler (lines 290-310): bump retry_count, seek to offset and
sendall the remaining size-offset bytes, then break out of the loop. -/

/-- Result of the payload phase of send_file: the bytes written to the
socket, whether the function reached the final ACK read (line 316)
without raising, and how many in-loop ACK reads (line 266) happened. -/
structure SendResult where
  wire : List Byte
  ok : Bool
  innerAckReads : Nat
deriving DecidableEq, Repr

/-- One execution of the while-loop of send_file lines 251-310, with
fuel for termination.  The branch taken when offset = size inside the
loop (the only one that reads the in-loop ACK and advances offset) is
translated as written even though the loop guard makes it unreachable. -/
def sendLoop (file : List Byte) (size : Nat) : Nat → Nat → Nat → List Byte → Nat → SendResult
  | _offset, _retry, acks, acc, 0 => ⟨acc, false, acks⟩
  | offset, retry, acks, acc, fuel + 1 =>
    if offset < size then
      let toSend := min (size - offset) SEND_CHUNK
      let acc₁ := acc ++ (file.drop offset).take toSend
      if offset ≠ size then
        -- raise ConnectionError("Incomplete transfer"), caught at line 290
        if retry + 1 > 3 then ⟨acc₁, false, acks⟩
        else
          -- fallback lines 297-310: f.seek(offset); sendall the rest; break
          ⟨acc₁ ++ file.drop offset, true, acks⟩
      else
        -- lines 262-288 (in-loop ACK read, offset += sent, retry reset)
        sendLoop file size (offset + toSend) 0 (acks + 1) acc₁ fuel
    else ⟨acc, true, acks⟩

/-- The payload phase of send_file on a file whose content is the given
byte list (size = os.path.getsize(src_path)). -/
def send_file_payload (file : List Byte) : SendResult :=
  sendLoop file file.length 0 0 0 [] (file.length + 1)

/-! ### Receiver worker write path (handle_client, pyfast_recv_v2.py 64-213)

The per-capture cleanup block (lines 98-179) and the shared-counter
update (lines 215-244) are modelled separately below; here we model the
header decoding, the temp-file write with atomic rename, and the ACK. -/

/-- bytes.decode() restricted to the ASCII fragment used throughout the
system: each byte becomes the character with that code point. -/
def pyDecode (b : List Byte) : String :=
  String.mk (b.map Char.ofNat)

/-- str.encode() on ASCII strings: each character becomes its code
point. -/
def strBytes (s : String) : List Byte :=
  s.data.map Char.toNat

/-- final_path computation, pyfast_recv_v2.py lines 181-184: with
use_dest_paths a non-empty dest_path is joined onto out_dir verbatim;
otherwise the bare name is used. -/
def final_path (out_dir : String) (use_dest_paths : Bool) (name dest : String) : String :=
  if use_dest_paths then
    (if dest ≠ "" then pyJoin out_dir dest else pyJoin out_dir name)
  else pyJoin out_dir name

/-- File-system side effects of one record receipt. -/
inductive FsOp where
  | createPart (path : String)
  | removePart (path : String)
  | writeRename (path : String) (content : List Byte)
deriving DecidableEq, Repr

instance exceptDecEq {ε α : Type} [DecidableEq ε] [DecidableEq α] :
    DecidableEq (Except ε α) := fun x y =>
  match x, y with
  | .ok a, .ok b =>
    if h : a = b then isTrue (by rw [h]) else isFalse (fun hc => h (Except.ok.inj hc))
  | .error a, .error b =>
    if h : a = b then isTrue (by rw [h]) else isFalse (fun hc => h (Except.error.inj hc))
  | .ok _, .error _ => isFalse (fun hc => Except.noConfusion hc)
  | .error _, .ok _ => isFalse (fun hc => Except.noConfusion hc)

/-- Outcome of processing one file record on a connection. -/
structure RecvStep where
  effects : List FsOp
  acks : Nat
  result : Except String (List Byte)
deriving DecidableEq, Repr

/-- One iteration of the receive loop (header decode, payload write
through final_path + ".part" with rename, then the single ACK byte,
lines 64-208).  A cap violation fails the connection before any file
operation; a stream that ends mid-payload removes the temp file and
fails the connection. -/
def recvStep (out_dir : String) (use_dest_paths : Bool) (s : List Byte) : RecvStep :=
  match parseHeader s with
  | .error e => ⟨[], 0, .error e⟩
  | .ok (r, s₁) =>
    let fp := final_path out_dir use_dest_paths (pyDecode r.name) (pyDecode r.dest)
    let tmp := fp ++ ".part"
    if r.size ≤ s₁.length then
      ⟨[.createPart tmp, .writeRename fp (s₁.take r.size)], 1, .ok (s₁.drop r.size)⟩
    else
      ⟨[.createPart tmp, .removePart tmp], 0, .error "socket closed mid-file"⟩

/-! ### Per-capture cleanup coordinator (handle_client, pyfast_recv_v2.py 98-179) -/

/-- Line 99-100: norm = os.path.normpath(dest_path); parts = the
components of norm that are non-empty and neither os.pardir ".." nor
os.curdir ".". -/
def cleanupParts (dest_path : String) : List String :=
  (splitSlash (pyNormPath dest_path)).filter
    (fun p => p != "" && p != ".." && p != ".")

/-- Lines 102-108: camera_name = basename(normpath(out_dir)); cam_idx =
parts.index(camera_name) (or -1 when absent); ball_id = parts[cam_idx-1]
when cam_idx > 0, else parts[0].  None when parts is empty (no cleanup
happens then). -/
def deriveBallId (out_dir dest_path : String) : Option String :=
  match cleanupParts dest_path with
  | [] => none
  | p :: ps =>
    let parts := p :: ps
    let camera_name := pyBasename (pyNormPath out_dir)
    match parts.indexOf? camera_name with
    | some i => if 0 < i then parts[i-1]? else parts[0]?
    | none => parts[0]?

/-- Lines 148-151: the two candidate subtrees, out_dir/ball_id and
dest_base/ball_id/camera_name (dest_base = dirname(out_dir)). -/
def cleanupTargets (out_dir ball_id : String) : List String :=
  [pyJoin out_dir ball_id,
   pyJoin (pyJoin (pyDirname out_dir) ball_id) (pyBasename (pyNormPath out_dir))]

/-- Lines 152-162: base_guard = normpath(dest_base); a target is deleted
(shutil.rmtree of its normalized path) only when its normalized path
starts with base_guard + os.sep.  The actual deletions are a subset of
this list (deletion additionally requires the sentinel count to be under
cleanup_max_count, the lock to be held, and the path to exist). -/
def deletedTargets (out_dir ball_id : String) : List String :=
  (cleanupTargets out_dir ball_id).filterMap (fun t =>
    let tn := pyNormPath t
    if strStartsWith tn (pyNormPath (pyDirname out_dir) ++ "/") then some tn else none)

/-! ### Shared counter store (pyfast_recv_v2.py 14-29 and 215-244)

The JSON state file maps ball_id to a record.  The float timestamp
fields first_emit_ts/last_emit_ts are carried by the code but never read
by any branch modelled here, so they are omitted.  A record freshly
created by a worker carries no "emitted" key and every reader uses
state.get("emitted", False), so absence is identified with false. -/

/-- One entry of the shared counter map. -/
structure CRec where
  count : Nat
  dragonfly_key : Option String
  side : Option String
  emitted : Bool
deriving DecidableEq, Repr

/-- The worker default record (line 228), with emitted absent = false. -/
def CRec.init : CRec := ⟨0, none, none, false⟩

/-- The shared counter map, in JSON (insertion) order. -/
abbrev GState := List (String × CRec)

/-- dict lookup. -/
def gget : GState → String → Option CRec
  | [], _ => none
  | (k, v) :: t, key => if k = key then some v else gget t key

/-- dict store gstate[ball_id] = b: replace in place, else append. -/
def gset : GState → String → CRec → GState
  | [], k, v => [(k, v)]
  | (k', v') :: t, k, v => if k' = k then (k, v) :: t else (k', v') :: gset t k v

/-- Lines 216-219: parts of normpath(dest_path) that are non-empty; the
counter key is parts[-3] when there are at least three of them. -/
def counterBallId (dest_path : String) : Option String :=
  let parts := (splitSlash (pyNormPath dest_path)).filter (fun p => p != "")
  if 3 ≤ parts.length then parts[parts.length - 3]? else none

/-- Lines 228-235: bump count; overwrite key/side only when non-empty. -/
def updateBall (g : GState) (ball key side : String) : GState :=
  let b0 := (gget g ball).getD CRec.init
  let b1 := { b0 with count := b0.count + 1 }
  let b2 := if key != "" then { b1 with dragonfly_key := some key } else b1
  let b3 := if side != "" then { b2 with side := some side } else b2
  gset g ball b3

/-- Lines 220-244: for _ in range(5): acquire the lock file
(with_file_lock) and update, else sleep 2 ms and retry.  avail gives the
environment's answer for each acquisition attempt; when the attempts are
exhausted the update is skipped. -/
def lockRetryLoop : List Bool → Nat → GState → (GState → GState) → GState
  | _, 0, g, _ => g
  | [], _ + 1, g, _ => g
  | a :: rest, n + 1, g, upd => if a then upd g else lockRetryLoop rest n g upd

/-- One successful file receipt as seen by the counter-update block:
the record's dest_path, key and side, plus the lock availability at each
acquisition attempt (false = the lock file already exists). -/
structure Receipt where
  dest : String
  key : String
  side : String
  lockAvail : List Bool

/-- The counter-update block for one receipt (guarded by use_dest_paths
and a non-empty dest_path, line 215). -/
def applyReceipt (g : GState) (r : Receipt) : GState :=
  if r.dest != "" then
    match counterBallId r.dest with
    | some ball => lockRetryLoop r.lockAvail 5 g (fun g' => updateBall g' ball r.key r.side)
    | none => g
  else g

/-- A sequence of successful receipts applied to the shared state. -/
def runReceipts (g : GState) (rs : List Receipt) : GState :=
  rs.foldl applyReceipt g

/-- The stored count for a ball (0 when absent). -/
def countOf (g : GState) (ball : String) : Nat :=
  ((gget g ball).getD CRec.init).count

/-- Whether the 5-attempt busy-wait loop ever acquires the lock. -/
def lockAcquired (avail : List Bool) : Bool :=
  (avail.take 5).any id

/-! ### Aggregator (pyfast_recv_v2.py 340-433) -/

/-- One camera entry of camera_config.json (fields used by this
system: "src" and "dest_path"; empty string models an absent field,
matching the falsiness checks in the code). -/
structure CamCfg where
  src : String
  dest_path : String
deriving DecidableEq, Repr

/-- Stable insertion into a key-sorted list (used to model Python
sorted(dict.items()); keys of a dict are unique, so comparing keys
only is faithful). -/
def insertSorted (x : String × CamCfg) : List (String × CamCfg) → List (String × CamCfg)
  | [] => [x]
  | y :: t => if x.1 ≤ y.1 then x :: y :: t else y :: insertSorted x t

/-- sorted(cfg.items()). -/
def sortByKey (l : List (String × CamCfg)) : List (String × CamCfg) :=
  l.foldr insertSorted []

/-- str[:-1]. -/
def strDropLast (s : String) : String :=
  String.mk s.data.dropLast

/-- "\n".join(paths). -/
def joinNewline (l : List String) : String :=
  String.mk (List.intercalate ['\x0a'] (l.map String.data))

/-- build_disk_paths (lines 340-355): for each camera in key order, use
its dest_path with a trailing separator stripped and append
ball_id/cam_name; cameras without dest_path are skipped.  (The
disk_root = dirname(dest_base) computed by the code is never used.) -/
def build_disk_paths (cfg : List (String × CamCfg)) (ball_id : String) : List String :=
  (sortByKey cfg).filterMap (fun e =>
    if e.2.dest_path = "" then none
    else
      let db := if strEndsWith e.2.dest_path "/" then strDropLast e.2.dest_path
                else e.2.dest_path
      some (pyJoin (pyJoin db ball_id) e.1))

/-- str.replace(pat, rep) on character lists: left-to-right,
non-overlapping replacement of every occurrence (CPython semantics;
only used with non-empty patterns, and an empty pattern is treated as
matching nowhere).  Fuelled so that it is structurally recursive; any
fuel at least the list length gives the replacement. -/
def replaceFuel (pat rep : List Char) : Nat → List Char → List Char
  | 0, s => s
  | _ + 1, [] => []
  | fuel + 1, c :: rest =>
    if pat.isPrefixOf (c :: rest) ∧ pat ≠ [] then
      rep ++ replaceFuel pat rep fuel (List.drop (pat.length - 1) rest)
    else c :: replaceFuel pat rep fuel rest

/-- str.replace on strings. -/
def pyReplace (s pat rep : String) : String :=
  String.mk (replaceFuel pat.data rep.data s.data.length s.data)

/-- Line 389: the external key-value-store key,
stored_dragonfly_key.replace("_V0", "") + "_FRAMEPATHS". -/
def framepathsKey (key : String) : String :=
  pyReplace key "_V0" "" ++ "_FRAMEPATHS"

/-- The spec-side description of what the claim C4 asserts: strip one
trailing "_V0" and leave any other occurrence intact. -/
def stripTrailingV0 (key : String) : String :=
  if strEndsWith key "_V0" then String.mk (key.data.dropLast.dropLast.dropLast) else key

/-- Spec of the amended C4: remove every (left-to-right,
non-overlapping) occurrence of "_V0". -/
def removeAllV0 : List Char → List Char
  | '_' :: 'V' :: '0' :: rest => removeAllV0 rest
  | c :: rest => c :: removeAllV0 rest
  | [] => []

/-- Whether "_V0" occurs in a character list. -/
def hasV0 : List Char → Bool
  | [] => false
  | c :: rest => (c = '_' ∧ rest.take 2 = ['V', '0']) || hasV0 rest

/-- One event published on the ZMQ PUB socket (lines 398-404); the
"count" key is dropped from the JSON body at line 423. -/
structure PubItem where
  ball_id : String
  diskpaths : List String
  dragonfly_key : String
  count : Nat
  side : String
deriving DecidableEq, Repr

/-- One pass of the aggregator loop body over the state map (lines
380-411), returning the updated map, the to_publish list, and the Redis
writes (framepaths_key, newline-joined disk paths) in order.  A record
emits when emitted is false and count >= emit_threshold; the stored
dragonfly_key and side fall back to ball_id + "_V0" and "FE". -/
def aggPass (thr : Nat) (cfg : List (String × CamCfg)) :
    GState → GState × List PubItem × List (String × String)
  | [] => ([], [], [])
  | (ball, st) :: t =>
    let rec' := aggPass thr cfg t
    if !st.emitted && decide (thr ≤ st.count) then
      let key := st.dragonfly_key.getD (ball ++ "_V0")
      let sd := st.side.getD "FE"
      let paths := build_disk_paths cfg ball
      ((ball, { st with emitted := true }) :: rec'.1,
        ⟨ball, paths, key, st.count, sd⟩ :: rec'.2.1,
        (framepathsKey key, joinNewline paths) :: rec'.2.2)
    else ((ball, st) :: rec'.1, rec'.2.1, rec'.2.2)

/-- Events of one receiver-fleet lifetime: worker receipts interleaved
with aggregator passes. -/
inductive Ev where
  | pass
  | receipt (r : Receipt)

/-- Whole-system state: the shared map plus everything published and
written to the KV store so far. -/
structure Sys where
  g : GState
  pubs : List PubItem
  kvs : List (String × String)

/-- One event step. -/
def sysStep (thr : Nat) (cfg : List (String × CamCfg)) (s : Sys) : Ev → Sys
  | .pass =>
    let r := aggPass thr cfg s.g
    ⟨r.1, s.pubs ++ r.2.1, s.kvs ++ r.2.2⟩
  | .receipt r => ⟨applyReceipt s.g r, s.pubs, s.kvs⟩

/-- A lifetime starting from the empty state (the state directory is
wiped at receiver start-up, pyfast_recv_v2.py line 12). -/
def runSys (thr : Nat) (cfg : List (String × CamCfg)) (evs : List Ev) : Sys :=
  evs.foldl (sysStep thr cfg) ⟨[], [], []⟩

/-- C1 failing input: a source file of 8388609 bytes — 8 MiB of zero
bytes followed by a single 0x01 byte. -/
def c1File : List Byte := List.replicate SEND_CHUNK 0 ++ [1]

/-- The wire record send_file emits for c1File (name "a.jpg", dest path
"capA/cam01/a.jpg", no key/side metadata). -/
def c1Record : WireRecord :=
  ⟨strBytes "a.jpg", strBytes "capA/cam01/a.jpg", [], [], c1File.length⟩

/-- What the receiver ends up storing for c1File: the first 8 MiB of the
file followed by the file's first byte again. -/
def c1Stored : List Byte := List.replicate SEND_CHUNK 0 ++ [0]

/-! ### Sender tailing session (pyfast_send_aftername_v2.py 481-543)

One sender session is a backlog scan followed by repeated tail scans.
Each scan folds over the names discover_once returned (listdir + glob +
sort).  Whether a file passes the completeness check (lookahead or size
stability) depends on the file system at that moment and is abstracted
as a per-scan oracle.  The loop break on reaching max_files is modelled
as skipping every remaining name — equivalent, since the guard
condition only depends on enqueued_files, which skipping leaves
unchanged. -/

/-- Sender session state: the last_name watermark, enqueued_files, and
the names handed to the queue in order. -/
structure SessState where
  lastName : String
  enqueued : Nat
  out : List String

/-- One backlog-phase iteration (lines 484-501): stop when max_files is
reached; for name > last_name, skip (without advancing last_name) when
the completeness check fails, else enqueue and advance last_name. -/
def backlogStep (maxFiles : Nat) (ready : String → Bool) (s : SessState) (name : String) :
    SessState :=
  if maxFiles ≠ 0 ∧ maxFiles ≤ s.enqueued then s
  else if s.lastName < name then
    if ready name then ⟨name, s.enqueued + 1, s.out ++ [name]⟩
    else s
  else s

/-- One tail-phase iteration (lines 514-531): same, except that the
inner max_files test guards only the enqueue while last_name is
advanced regardless. -/
def tailStep (maxFiles : Nat) (ready : String → Bool) (s : SessState) (name : String) :
    SessState :=
  if maxFiles ≠ 0 ∧ maxFiles ≤ s.enqueued then s
  else if s.lastName < name then
    if ready name then
      if maxFiles = 0 ∨ s.enqueued < maxFiles then ⟨name, s.enqueued + 1, s.out ++ [name]⟩
      else ⟨name, s.enqueued, s.out⟩
    else s
  else s

/-- One directory scan: the sorted name list discover_once produced and
the completeness-check outcome for each name during this scan. -/
structure ScanPass where
  names : List String
  ready : String → Bool

/-- The backlog phase over one scan. -/
def runBacklog (maxFiles : Nat) (s : SessState) (p : ScanPass) : SessState :=
  p.names.foldl (backlogStep maxFiles p.ready) s

/-- One tail-phase scan. -/
def runTail (maxFiles : Nat) (s : SessState) (p : ScanPass) : SessState :=
  p.names.foldl (tailStep maxFiles p.ready) s

/-- A whole session: last_name starts at start_after, enqueued at 0;
backlog scan, then any number of tail scans. -/
def runSession (maxFiles : Nat) (startAfter : String) (backlog : ScanPass)
    (tails : List ScanPass) : SessState :=
  tails.foldl (runTail maxFiles) (runBacklog maxFiles ⟨startAfter, 0, []⟩ backlog)

/-- Session invariant: enqueued names are strictly increasing, all
bounded by the watermark, and all strictly above start_after. -/
def tailerInv (s0 : String) (s : SessState) : Prop :=
  List.Pairwise (· < ·) s.out ∧ (∀ x ∈ s.out, x ≤ s.lastName) ∧
    s0 ≤ s.lastName ∧ (∀ x ∈ s.out, s0 < x)

/-! ### Trigger bridge (run_senders_from_config.py) -/

/-- The character for decimal digit d. -/
def digitChar (d : Nat) : Char := Char.ofNat (48 + d)

/-- Decimal digit test. -/
def isDigitChar (c : Char) : Bool := decide ('0' ≤ c ∧ c ≤ '9')

/-- int() on a list of decimal digits (most significant first). -/
def digitsToNat (l : List Char) : Nat :=
  l.foldl (fun a c => a * 10 + (c.toNat - 48)) 0

/-- Decimal digits of n, least significant first, with fuel (any fuel
above the digit count is enough). -/
def natToDigitsRev : Nat → Nat → List Char
  | 0, _ => []
  | fuel + 1, n =>
    if n < 10 then [digitChar n]
    else digitChar (n % 10) :: natToDigitsRev fuel (n / 10)

/-- str(n) for a natural number. -/
def natToStr (n : Nat) : String :=
  String.mk (natToDigitsRev (n + 1) n).reverse

/-- Python f-string zero padding to width w. -/
def zeroPad (w : Nat) (n : Nat) : String :=
  let d := (natToDigitsRev (n + 1) n).reverse
  String.mk (List.replicate (w - d.length) '0' ++ d)

/-- The anchored regex match of parse_frame_number_from_id (line 14-18):
re.match(r"frame_[^_]+_(\d{9})\.jpg$", frame_id), returning the 9-digit
group.  [^_]+ can never contain an underscore, so backtracking collapses
to: the camera part is the maximal non-underscore run after "frame_",
it must be non-empty, then an underscore, exactly 9 digits and ".jpg" at
the end of the string ($ also matches just before one trailing
newline). -/
def frameMatch (l : List Char) : Option (List Char) :=
  match l with
  | 'f' :: 'r' :: 'a' :: 'm' :: 'e' :: '_' :: rest =>
    if rest.takeWhile (fun c => c ≠ '_') = [] then none
    else
      match rest.drop (rest.takeWhile (fun c => c ≠ '_')).length with
      | '_' :: r2 =>
        if (r2.take 9).length = 9 ∧ (r2.take 9).all isDigitChar ∧
            (r2.drop 9 = ['.', 'j', 'p', 'g'] ∨ r2.drop 9 = ['.', 'j', 'p', 'g', '\x0a'])
        then some (r2.take 9) else none
      | _ => none
  | _ => none

/-- parse_frame_number_from_id: the captured group as an int; None
models the ValueError. -/
def parse_frame_number_from_id (fid : String) : Option Nat :=
  (frameMatch fid.data).map digitsToNat

/-- construct_dest_path (lines 34-38):
os.path.join(camera_dest_path, ball_id, camera_name).replace(backslash,
slash); empty camera_dest_path gives "". -/
def construct_dest_path (camera_dest_path ball_id camera_name : String) : String :=
  if camera_dest_path = "" then ""
  else pyReplace (pyJoin (pyJoin camera_dest_path ball_id) camera_name) "\x5c" "/"

/-- Placeholder for sys.executable. -/
def pyExe : String := "python3"

/-- Placeholder for the sender script path. -/
def senderScript : String := "pyfast_send_aftername_v2.py"

/-- The exact argument vector built for one sender (lines 114-135):
fixed host 192.168.5.101, pattern *.jpg, conns 8, lookahead 4,
stable-ms 1, stable-passes 1, max-files 899, --once --verbose
--cleanup-part-files, then --dest-path.  No --dragonfly-key or --side
argument is ever added. -/
def mkSenderCmd (src start_after : String) (port : Nat) (dest_path : String) : List String :=
  [pyExe, senderScript,
   "--src-dir", src, "--start-after", start_after, "--host", "192.168.5.101",
   "--port", natToStr port, "--pattern", "*.jpg", "--conns", "8",
   "--lookahead", "4", "--stable-ms", "1", "--stable-passes", "1",
   "--max-files", "899", "--once", "--verbose", "--cleanup-part-files",
   "--dest-path", dest_path]

/-- One spawned sender: its camera key, port, and argument vector. -/
structure SenderCmd where
  cam : String
  port : Nat
  args : List String
deriving DecidableEq, Repr

/-- The launch loop (lines 91-144): enumerate the cameras sorted by key
(the index counts skipped entries too), skip entries without src or
dest_path, port = 50001 + index, start_after = frame_<cam>_<suffix>.jpg,
destination <dest_path>/<ball_id>/<basename(normpath(src))>. -/
def launchGo (suffix ball_id : String) : Nat → List (String × CamCfg) → List SenderCmd
  | _, [] => []
  | idx, (cam, cfg) :: rest =>
    if cfg.src = "" then launchGo suffix ball_id (idx + 1) rest
    else if cfg.dest_path = "" then launchGo suffix ball_id (idx + 1) rest
    else
      ⟨cam, 50001 + idx,
        mkSenderCmd cfg.src ("frame_" ++ cam ++ "_" ++ suffix ++ ".jpg") (50001 + idx)
          (construct_dest_path cfg.dest_path ball_id (pyBasename (pyNormPath cfg.src)))⟩ ::
        launchGo suffix ball_id (idx + 1) rest

/-- launch_senders_with_suffix (line 78). -/
def launch_senders_with_suffix (cameras : List (String × CamCfg)) (suffix ball_id : String) :
    List SenderCmd :=
  launchGo suffix ball_id 0 (sortByKey cameras)

/-- One trigger message as consumed by the SUB loop (lines 240-266):
isStopped (absent = false), frame_id (absent = rejected), ball_id
(absent = "default"); dragonfly_key and side are part of the message
schema but the bridge never reads them. -/
structure TriggerMsg where
  frame_id : Option String
  ball_id : Option String
  dragonfly_key : Option String
  side : Option String
  isStopped : Bool

/-- The SUB-loop handling of one message: ignore when stopped, reject
without frame_id or when the regex fails, else launch one sender per
configured camera with suffix = the 9-digit frame index re-padded to 9
digits. -/
def processTrigger (cameras : List (String × CamCfg)) (msg : TriggerMsg) :
    Option (List SenderCmd) :=
  if msg.isStopped then none
  else
    match msg.frame_id with
    | none => none
    | some fid =>
      match parse_frame_number_from_id fid with
      | none => none
      | some num =>
        some (launch_senders_with_suffix cameras (zeroPad 9 num) (msg.ball_id.getD "default"))

/-! ## Theorems -/

theorem packU64_length (n : Nat) : (packU64 n).length = 8 := rfl

theorem read_u64_packU64 (n : Nat) (hn : n < 2 ^ 64) (rest : List Byte) :
    read_u64 (packU64 n ++ rest) = .ok (n, rest) := by
  have h8 : (packU64 n).length = 8 := rfl
  unfold read_u64 recvall
  rw [if_pos (by simp [h8])]
  rw [List.take_left' h8, List.drop_left' h8]
  simp only [packU64, List.foldl]
  congr 1
  congr 1
  omega

theorem recvall_exact {l : List Byte} {n : Nat} (h : l.length = n) (rest : List Byte) :
    recvall n (l ++ rest) = .ok (l, rest) := by
  unfold recvall
  rw [if_pos (by simp [h]), List.take_left' h, List.drop_left' h]

theorem readField_encode {l : List Byte} {maxLen : Nat} (err : String)
    (hle : l.length ≤ maxLen) (hlt : l.length < 2 ^ 64) (rest : List Byte) :
    readField maxLen err (packU64 l.length ++ (l ++ rest)) = .ok (l, rest) := by
  unfold readField
  rw [read_u64_packU64 l.length hlt (l ++ rest)]
  simp only [gt_iff_lt, if_neg (Nat.not_lt.mpr hle)]
  exact recvall_exact rfl rest

/-- Decoding inverts encoding: a record whose fields respect the caps is
parsed back field for field, leaving the rest of the stream untouched
(round-trip law of §8 for the header part). -/
theorem parseHeader_encodeHeader (r : WireRecord) (rest : List Byte)
    (h₁ : r.name.length ≤ MAX_NAME) (h₂ : r.dest.length ≤ MAX_DEST)
    (h₃ : r.dragonfly_key.length ≤ MAX_DRAGONFLY_KEY) (h₄ : r.side.length ≤ MAX_SIDE)
    (h₅ : r.size < 2 ^ 64) :
    parseHeader (encodeHeader r ++ rest) = .ok (r, rest) := by
  have cap : MAX_NAME < 2 ^ 64 := by decide
  have cap2 : MAX_DEST < 2 ^ 64 := by decide
  have cap3 : MAX_DRAGONFLY_KEY < 2 ^ 64 := by decide
  have cap4 : MAX_SIDE < 2 ^ 64 := by decide
  unfold parseHeader encodeHeader
  simp only [List.append_assoc,
    readField_encode "name too long" h₁ (by omega),
    readField_encode "dest too long" h₂ (by omega),
    readField_encode "dragonfly_key too long" h₃ (by omega),
    readField_encode "side too long" h₄ (by omega),
    read_u64_packU64 r.size h₅]

/-- recvStep on a stream whose header parses and whose payload is fully
available: the temp file is created, the payload prefix is renamed into
final_path, and one ACK is sent. -/
theorem recvStep_ok (out_dir : String) (use_dest_paths : Bool)
    (name dest key side : List Byte) (size : Nat) (s rest : List Byte)
    (hp : parseHeader s = .ok (⟨name, dest, key, side, size⟩, rest))
    (hle : size ≤ rest.length) :
    recvStep out_dir use_dest_paths s =
      ⟨[.createPart (final_path out_dir use_dest_paths (pyDecode name) (pyDecode dest)
          ++ ".part"),
        .writeRename (final_path out_dir use_dest_paths (pyDecode name) (pyDecode dest))
          (rest.take size)], 1, .ok (rest.drop size)⟩ := by
  unfold recvStep
  rw [hp]
  simp only [if_pos hle]

/-- What send_file actually puts on the wire after the header: the first
min(size, 8 MiB) bytes via sendfile, then — because the in-loop check
raises on the first iteration — the whole file again via the sendall
fallback.  It then reads one ACK and reports success.  The chunked
sendfile loop (including its in-loop ACK read) never completes an
iteration. -/
theorem send_file_payload_eq (file : List Byte) (h : file ≠ []) :
    send_file_payload file =
      ⟨file.take (min file.length SEND_CHUNK) ++ file, true, 0⟩ := by
  have hlen : 0 < file.length := List.length_pos.mpr h
  unfold send_file_payload sendLoop
  rw [if_pos hlen, if_pos (Ne.symm hlen.ne'), if_neg (by decide : ¬ (0 + 1 > 3))]
  simp [Nat.sub_zero]

/-- A length field over its cap makes readField fail with the
corresponding ValueError, regardless of what follows on the stream. -/
theorem readField_over (n maxLen : Nat) (err : String) (h : maxLen < n) (hn : n < 2 ^ 64)
    (rest : List Byte) : readField maxLen err (packU64 n ++ rest) = .error err := by
  unfold readField
  rw [read_u64_packU64 n hn]
  simp only [gt_iff_lt, if_pos h]

/-- A parse error fails the connection with no file-system effect and no
ACK. -/
theorem recvStep_error {s : List Byte} {e : String} (out_dir : String)
    (use_dest_paths : Bool) (hp : parseHeader s = .error e) :
    recvStep out_dir use_dest_paths s = ⟨[], 0, .error e⟩ := by
  unfold recvStep
  rw [hp]

theorem parseHeader_name_over (rest : List Byte) :
    parseHeader (packU64 4097 ++ rest) = .error "name too long" := by
  unfold parseHeader
  rw [readField_over 4097 MAX_NAME "name too long" (by decide) (by decide) rest]

theorem parseHeader_dest_over {name : List Byte} (h : name.length ≤ MAX_NAME)
    (rest : List Byte) :
    parseHeader (packU64 name.length ++ (name ++ (packU64 4097 ++ rest))) =
      .error "dest too long" := by
  unfold parseHeader
  simp only [readField_encode "name too long" h (lt_of_le_of_lt h (by decide)) _,
    readField_over 4097 MAX_DEST "dest too long" (by decide) (by decide) rest]

theorem parseHeader_key_over {name dest : List Byte} (h₁ : name.length ≤ MAX_NAME)
    (h₂ : dest.length ≤ MAX_DEST) (rest : List Byte) :
    parseHeader (packU64 name.length ++ (name ++ (packU64 dest.length ++ (dest ++
        (packU64 257 ++ rest))))) = .error "dragonfly_key too long" := by
  unfold parseHeader
  simp only [readField_encode "name too long" h₁ (lt_of_le_of_lt h₁ (by decide)) _,
    readField_encode "dest too long" h₂ (lt_of_le_of_lt h₂ (by decide)) _,
    readField_over 257 MAX_DRAGONFLY_KEY "dragonfly_key too long" (by decide) (by decide) rest]

theorem parseHeader_side_over {name dest key : List Byte} (h₁ : name.length ≤ MAX_NAME)
    (h₂ : dest.length ≤ MAX_DEST) (h₃ : key.length ≤ MAX_DRAGONFLY_KEY) (rest : List Byte) :
    parseHeader (packU64 name.length ++ (name ++ (packU64 dest.length ++ (dest ++
        (packU64 key.length ++ (key ++ (packU64 65 ++ rest))))))) =
      .error "side too long" := by
  unfold parseHeader
  simp only [readField_encode "name too long" h₁ (lt_of_le_of_lt h₁ (by decide)) _,
    readField_encode "dest too long" h₂ (lt_of_le_of_lt h₂ (by decide)) _,
    readField_encode "dragonfly_key too long" h₃ (lt_of_le_of_lt h₃ (by decide)) _,
    readField_over 65 MAX_SIDE "side too long" (by decide) (by decide) rest]

/-- Claim C7: a record whose four variable-length fields sit exactly at
the caps (name 4096, dest 4096, key 256, side 64) is accepted — the
payload is written and acknowledged; a name length of 4097 fails the
connection right after the 8 length bytes, whatever bytes follow (so no
further field is read), with no file and no .part artifact created; and
the same one-over-cap pattern holds for dest_len = 4097, key_len = 257
and side_len = 65. -/
theorem c7_length_caps :
    (∀ (name dest key side payload rest : List Byte) (out_dir : String),
      name.length = MAX_NAME → dest.length = MAX_DEST →
      key.length = MAX_DRAGONFLY_KEY → side.length = MAX_SIDE →
      payload.length < 2 ^ 64 →
      recvStep out_dir true
          (encodeHeader ⟨name, dest, key, side, payload.length⟩ ++ (payload ++ rest)) =
        ⟨[.createPart (final_path out_dir true (pyDecode name) (pyDecode dest) ++ ".part"),
          .writeRename (final_path out_dir true (pyDecode name) (pyDecode dest)) payload],
          1, .ok rest⟩) ∧
    (∀ (rest : List Byte) (out_dir : String) (use_dest_paths : Bool),
      recvStep out_dir use_dest_paths (packU64 4097 ++ rest) =
        ⟨[], 0, .error "name too long"⟩) ∧
    (∀ (name rest : List Byte) (out_dir : String) (use_dest_paths : Bool),
      name.length ≤ MAX_NAME →
      recvStep out_dir use_dest_paths
          (packU64 name.length ++ (name ++ (packU64 4097 ++ rest))) =
        ⟨[], 0, .error "dest too long"⟩) ∧
    (∀ (name dest rest : List Byte) (out_dir : String) (use_dest_paths : Bool),
      name.length ≤ MAX_NAME → dest.length ≤ MAX_DEST →
      recvStep out_dir use_dest_paths
          (packU64 name.length ++ (name ++ (packU64 dest.length ++ (dest ++
            (packU64 257 ++ rest))))) =
        ⟨[], 0, .error "dragonfly_key too long"⟩) ∧
    (∀ (name dest key rest : List Byte) (out_dir : String) (use_dest_paths : Bool),
      name.length ≤ MAX_NAME → dest.length ≤ MAX_DEST → key.length ≤ MAX_DRAGONFLY_KEY →
      recvStep out_dir use_dest_paths
          (packU64 name.length ++ (name ++ (packU64 dest.length ++ (dest ++
            (packU64 key.length ++ (key ++ (packU64 65 ++ rest))))))) =
        ⟨[], 0, .error "side too long"⟩) := by
  refine ⟨?_, ?_, ?_, ?_, ?_⟩
  · intro name dest key side payload rest out_dir e₁ e₂ e₃ e₄ e₅
    have hp : parseHeader (encodeHeader ⟨name, dest, key, side, payload.length⟩ ++
        (payload ++ rest)) = .ok (⟨name, dest, key, side, payload.length⟩, payload ++ rest) :=
      parseHeader_encodeHeader _ _ (le_of_eq e₁) (le_of_eq e₂) (le_of_eq e₃) (le_of_eq e₄) e₅
    have hs := recvStep_ok out_dir true name dest key side payload.length _ _ hp
      (by rw [List.length_append]; omega)
    rw [List.take_left' rfl, List.drop_left' rfl] at hs
    exact hs
  · intro rest out_dir udp
    exact recvStep_error out_dir udp (parseHeader_name_over rest)
  · intro name rest out_dir udp h
    exact recvStep_error out_dir udp (parseHeader_dest_over h rest)
  · intro name dest rest out_dir udp h₁ h₂
    exact recvStep_error out_dir udp (parseHeader_key_over h₁ h₂ rest)
  · intro name dest key rest out_dir udp h₁ h₂ h₃
    exact recvStep_error out_dir udp (parseHeader_side_over h₁ h₂ h₃ rest)

/-- Witness for c7_length_caps at concrete inputs: a record with all four
fields exactly at the caps is accepted and acknowledged, and a name_len
of 4097 is rejected with no effects. -/
theorem c7_length_caps_witness :
    recvStep "/out" true
        (encodeHeader ⟨List.replicate 4096 97, List.replicate 4096 98,
            List.replicate 256 99, List.replicate 64 100, ([5] : List Byte).length⟩ ++
          ([5] ++ [])) =
      ⟨[.createPart (final_path "/out" true (pyDecode (List.replicate 4096 97))
            (pyDecode (List.replicate 4096 98)) ++ ".part"),
        .writeRename (final_path "/out" true (pyDecode (List.replicate 4096 97))
            (pyDecode (List.replicate 4096 98))) [5]], 1, .ok []⟩ ∧
    recvStep "/out" true (packU64 4097 ++ [0, 1, 2]) = ⟨[], 0, .error "name too long"⟩ :=
  ⟨c7_length_caps.1 (List.replicate 4096 97) (List.replicate 4096 98)
      (List.replicate 256 99) (List.replicate 64 100) [5] [] "/out"
      (List.length_replicate _ _) (List.length_replicate _ _)
      (List.length_replicate _ _) (List.length_replicate _ _) (by decide),
    c7_length_caps.2.1 [0, 1, 2] "/out" true⟩

/-- A ball id derived by the cleanup block is one of the filtered
components: never "..", never ".", never empty. -/
theorem deriveBallId_mem {out_dir dest_path b : String}
    (h : deriveBallId out_dir dest_path = some b) : b ∈ cleanupParts dest_path := by
  unfold deriveBallId at h
  split at h
  · exact absurd h (by simp)
  · rename_i p ps hp
    simp only at h
    split at h
    · split at h
      · rw [hp]; exact List.getElem?_mem h
      · rw [hp]; exact List.getElem?_mem h
    · rw [hp]; exact List.getElem?_mem h

/-- Claim C6: every subtree the cleanup block deletes has a normalized
path that starts with the normalized dest_base followed by the path
separator (the guard of lines 155-157), and the capture identifier is
drawn from the dest_path components with ".." and "." (and empties)
dropped, so it can never name a parent directory.  Hence no deletion
outside dest_base occurs, whatever `..` components the received
dest_path contains. -/
theorem c6_cleanup_guard :
    (∀ (out_dir ball_id t : String), t ∈ deletedTargets out_dir ball_id →
      strStartsWith t (pyNormPath (pyDirname out_dir) ++ "/") = true) ∧
    (∀ (out_dir dest_path b : String), deriveBallId out_dir dest_path = some b →
      b ≠ ".." ∧ b ≠ "." ∧ b ≠ "") := by
  constructor
  · intro out_dir ball_id t ht
    obtain ⟨a, _, ha⟩ := List.mem_filterMap.mp ht
    by_cases hc : strStartsWith (pyNormPath a) (pyNormPath (pyDirname out_dir) ++ "/") = true
    · simp only [if_pos hc] at ha
      exact Option.some.inj ha ▸ hc
    · simp only [if_neg hc] at ha
      exact absurd ha (by simp)
  · intro out_dir dest_path b h
    have hb := deriveBallId_mem h
    have := (List.mem_filter.mp hb).2
    simp only [Bool.and_eq_true, bne_iff_ne, ne_eq] at this
    exact ⟨this.1.2, this.2, this.1.1⟩

/-- Witness for c6_cleanup_guard: the target "/dst/cam01/capA" kept for
deletion at out_dir = "/dst/cam01" starts with "/dst/"; the ball id
derived from "capA/cam01/f.jpg" is "capA". -/
theorem c6_cleanup_guard_witness :
    "/dst/cam01/capA" ∈ deletedTargets "/dst/cam01" "capA" ∧
    strStartsWith "/dst/cam01/capA" (pyNormPath (pyDirname "/dst/cam01") ++ "/") = true ∧
    deriveBallId "/dst/cam01" "capA/cam01/f.jpg" = some "capA" ∧
    "capA" ≠ ".." ∧ "capA" ≠ "." ∧ "capA" ≠ "" :=
  ⟨by decide,
   c6_cleanup_guard.1 "/dst/cam01" "capA" "/dst/cam01/capA" (by decide),
   by decide,
   c6_cleanup_guard.2 "/dst/cam01" "capA/cam01/f.jpg" "capA" (by decide)⟩

theorem lockRetryLoop_eq (avail : List Bool) (n : Nat) (g : GState) (upd : GState → GState) :
    lockRetryLoop avail n g upd = if (avail.take n).any id then upd g else g := by
  induction n generalizing avail with
  | zero => simp [lockRetryLoop]
  | succ n ih =>
    cases avail with
    | nil => simp [lockRetryLoop]
    | cons a rest =>
      cases a with
      | true => simp [lockRetryLoop]
      | false => simp [lockRetryLoop, ih]

theorem gget_gset (g : GState) (k k' : String) (v : CRec) :
    gget (gset g k v) k' = if k = k' then some v else gget g k' := by
  induction g with
  | nil => simp [gget, gset]
  | cons e t ih =>
    obtain ⟨ek, ev⟩ := e
    by_cases he : ek = k
    · subst he
      by_cases hk : ek = k'
      · subst hk; simp [gget, gset]
      · simp [gget, gset, hk]
    · by_cases hek : ek = k'
      · subst hek
        have hkk : ¬ k = ek := fun h => he h.symm
        simp [gget, gset, he, hkk]
      · simp [gget, gset, he, hek, ih]

theorem countOf_updateBall (g : GState) (b' key side ball : String) :
    countOf (updateBall g b' key side) ball =
      if b' = ball then countOf g ball + 1 else countOf g ball := by
  unfold countOf updateBall
  rw [gget_gset]
  by_cases h : b' = ball
  · rw [if_pos h, if_pos h]
    by_cases hk : key != ""
    · by_cases hs : side != "" <;> simp [hk, hs, h]
    · by_cases hs : side != "" <;> simp [hk, hs, h]
  · rw [if_neg h, if_neg h]

/-- Claim C2 counterexample: a single successful receipt for capture
"cap" whose five lock-acquisition attempts all fail (the lock file
already exists throughout) leaves the stored count at 0, not 1: the
update is silently lost. -/
theorem c2_contended_update_lost :
    countOf (runReceipts []
      [⟨"cap/cam/f.jpg", "", "", [false, false, false, false, false]⟩]) "cap" = 0 ∧
    counterBallId "cap/cam/f.jpg" = some "cap" ∧
    ¬ (countOf (runReceipts []
      [⟨"cap/cam/f.jpg", "", "", [false, false, false, false, false]⟩]) "cap" = 1) := by
  decide

/-- Claim C2 (amended): after any sequence of successful receipts, the
stored count of every capture equals the number of receipts for that
capture whose busy-wait loop acquired the write lock within its 5
attempts; receipts whose 5 attempts all fail are skipped and their
update is lost. -/
theorem c2_count_equals_acquired_receipts (g : GState) (rs : List Receipt) (ball : String) :
    countOf (runReceipts g rs) ball =
      countOf g ball +
        (rs.filter (fun r =>
          r.dest != "" && counterBallId r.dest == some ball && lockAcquired r.lockAvail)).length := by
  induction rs generalizing g with
  | nil => simp [runReceipts]
  | cons r rs ih =>
    have hstep : runReceipts g (r :: rs) = runReceipts (applyReceipt g r) rs := rfl
    rw [hstep, ih]
    have happ : countOf (applyReceipt g r) ball =
        countOf g ball +
          (if r.dest != "" && counterBallId r.dest == some ball && lockAcquired r.lockAvail
           then 1 else 0) := by
      unfold applyReceipt
      by_cases hd : r.dest != ""
      · rw [if_pos hd]
        cases hcb : counterBallId r.dest with
        | none => simp [hd, hcb]
        | some b =>
          simp only [lockRetryLoop_eq]
          by_cases hl : (r.lockAvail.take 5).any id
          · rw [if_pos hl, countOf_updateBall]
            by_cases hb : b = ball
            · subst hb
              simp [hd, lockAcquired, hl]
            · simp [hd, hb, lockAcquired, hl]
          · rw [if_neg hl]
            simp [lockAcquired, hl]
      · rw [if_neg hd]
        simp [hd]
    rw [happ, List.filter_cons]
    by_cases hc : r.dest != "" && counterBallId r.dest == some ball && lockAcquired r.lockAvail
    · simp [hc]
      omega
    · simp [hc]

/-- How one aggregator pass transforms a single record. -/
def emitUpd (thr : Nat) (st : CRec) : CRec :=
  if !st.emitted && decide (thr ≤ st.count) then { st with emitted := true } else st

theorem aggPass_keys (thr : Nat) (cfg : List (String × CamCfg)) (g : GState) :
    ((aggPass thr cfg g).1).map Prod.fst = g.map Prod.fst := by
  induction g with
  | nil => rfl
  | cons e t ih =>
    obtain ⟨b, st⟩ := e
    by_cases h : (!st.emitted && decide (thr ≤ st.count)) = true
    · simp [aggPass, h, ih]
    · simp [aggPass, h, ih]

theorem aggPass_pubs (thr : Nat) (cfg : List (String × CamCfg)) (g : GState) :
    ((aggPass thr cfg g).2.1).map PubItem.ball_id =
      (g.filter (fun e => !e.2.emitted && decide (thr ≤ e.2.count))).map Prod.fst := by
  induction g with
  | nil => rfl
  | cons e t ih =>
    obtain ⟨b, st⟩ := e
    by_cases h : (!st.emitted && decide (thr ≤ st.count)) = true
    · simp [aggPass, h, ih, List.filter_cons]
    · simp [aggPass, h, ih, List.filter_cons]

theorem aggPass_gget (thr : Nat) (cfg : List (String × CamCfg)) (g : GState) (ball : String) :
    gget (aggPass thr cfg g).1 ball = (gget g ball).map (emitUpd thr) := by
  induction g with
  | nil => rfl
  | cons e t ih =>
    obtain ⟨b, st⟩ := e
    by_cases h : (!st.emitted && decide (thr ≤ st.count)) = true
    · by_cases hb : b = ball
      · simp [aggPass, h, gget, hb, emitUpd]
      · simp [aggPass, h, gget, hb, ih]
    · by_cases hb : b = ball
      · simp [aggPass, h, gget, hb, emitUpd]
      · simp [aggPass, h, gget, hb, ih]

theorem aggPass_kvs (thr : Nat) (cfg : List (String × CamCfg)) (g : GState) :
    (aggPass thr cfg g).2.2 =
      ((aggPass thr cfg g).2.1).map
        (fun it => (framepathsKey it.dragonfly_key, joinNewline it.diskpaths)) := by
  induction g with
  | nil => rfl
  | cons e t ih =>
    obtain ⟨b, st⟩ := e
    by_cases h : (!st.emitted && decide (thr ≤ st.count)) = true
    · simp [aggPass, h, ih]
    · simp [aggPass, h, ih]

theorem aggPass_pubs_mem (thr : Nat) (cfg : List (String × CamCfg)) (g : GState)
    (it : PubItem) (h : it ∈ (aggPass thr cfg g).2.1) :
    ∃ st : CRec, (it.ball_id, st) ∈ g ∧ st.emitted = false ∧ thr ≤ st.count ∧
      it.dragonfly_key = st.dragonfly_key.getD (it.ball_id ++ "_V0") ∧
      it.side = st.side.getD "FE" ∧
      it.diskpaths = build_disk_paths cfg it.ball_id ∧ it.count = st.count := by
  induction g with
  | nil => exact absurd h (by simp [aggPass])
  | cons e t ih =>
    obtain ⟨b, st⟩ := e
    by_cases hc : (!st.emitted && decide (thr ≤ st.count)) = true
    · rw [show aggPass thr cfg ((b, st) :: t) =
        ((b, { st with emitted := true }) :: (aggPass thr cfg t).1,
          ⟨b, build_disk_paths cfg b, st.dragonfly_key.getD (b ++ "_V0"), st.count,
            st.side.getD "FE"⟩ :: (aggPass thr cfg t).2.1,
          (framepathsKey (st.dragonfly_key.getD (b ++ "_V0")),
            joinNewline (build_disk_paths cfg b)) :: (aggPass thr cfg t).2.2) from by
          simp [aggPass, hc]] at h
      rcases List.mem_cons.mp h with heq | ht
      · subst heq
        refine ⟨st, by simp, ?_, ?_, rfl, rfl, rfl, rfl⟩
        · have := (Bool.and_eq_true _ _).mp hc
          simpa using this.1
        · have := (Bool.and_eq_true _ _).mp hc
          simpa using this.2
      · obtain ⟨st', hmem, rest⟩ := ih ht
        exact ⟨st', List.mem_cons_of_mem _ hmem, rest⟩
    · rw [show aggPass thr cfg ((b, st) :: t) =
        ((b, st) :: (aggPass thr cfg t).1, (aggPass thr cfg t).2.1,
          (aggPass thr cfg t).2.2) from by simp [aggPass, hc]] at h
      obtain ⟨st', hmem, rest⟩ := ih h
      exact ⟨st', List.mem_cons_of_mem _ hmem, rest⟩

theorem gset_keys_mem (g : GState) (k : String) (v : CRec) (b : String) :
    b ∈ (gset g k v).map Prod.fst ↔ b ∈ g.map Prod.fst ∨ b = k := by
  induction g with
  | nil => simp [gset]
  | cons e t ih =>
    obtain ⟨ek, ev⟩ := e
    by_cases he : ek = k
    · subst he
      simp [gset]
      tauto
    · simp [gset, he, ih]
      tauto

theorem gset_keys_nodup {g : GState} (k : String) (v : CRec)
    (h : (g.map Prod.fst).Nodup) : ((gset g k v).map Prod.fst).Nodup := by
  induction g with
  | nil => simp [gset]
  | cons e t ih =>
    obtain ⟨ek, ev⟩ := e
    simp only [List.map_cons, List.nodup_cons] at h
    by_cases he : ek = k
    · subst he
      simpa [gset] using h
    · simp only [gset, if_neg he, List.map_cons, List.nodup_cons]
      refine ⟨?_, ih h.2⟩
      rw [gset_keys_mem]
      rintro (hm | hm)
      · exact h.1 hm
      · exact he hm

theorem gget_of_mem_nodup {g : GState} {b : String} {st : CRec}
    (hn : (g.map Prod.fst).Nodup) (hm : (b, st) ∈ g) : gget g b = some st := by
  induction g with
  | nil => exact absurd hm (by simp)
  | cons e t ih =>
    obtain ⟨ek, ev⟩ := e
    simp only [List.map_cons, List.nodup_cons] at hn
    rcases List.mem_cons.mp hm with heq | hmt
    · injection heq with h1 h2
      simp [gget, h1.symm, h2]
    · have hne : ek ≠ b := by
        intro h
        subst h
        exact hn.1 (by simpa using List.mem_map_of_mem Prod.fst hmt)
      simp [gget, hne, ih hn.2 hmt]

theorem updateBall_emitted (g : GState) (ball key side b : String) (st : CRec)
    (h : gget g b = some st) :
    ∃ st', gget (updateBall g ball key side) b = some st' ∧ st'.emitted = st.emitted := by
  unfold updateBall
  rw [gget_gset]
  by_cases hb : ball = b
  · subst hb
    rw [if_pos rfl, h]
    refine ⟨_, rfl, ?_⟩
    by_cases hk : key != "" <;> by_cases hs : side != "" <;> simp [hk, hs]
  · rw [if_neg hb, h]
    exact ⟨st, rfl, rfl⟩

theorem applyReceipt_gget_emitted (g : GState) (r : Receipt) (b : String) (st : CRec)
    (h : gget g b = some st) :
    ∃ st', gget (applyReceipt g r) b = some st' ∧ st'.emitted = st.emitted := by
  unfold applyReceipt
  by_cases hd : r.dest != ""
  · rw [if_pos hd]
    cases hcb : counterBallId r.dest with
    | none => exact ⟨st, h, rfl⟩
    | some ball =>
      simp only [lockRetryLoop_eq]
      by_cases hl : (r.lockAvail.take 5).any id
      · rw [if_pos hl]
        exact updateBall_emitted g ball r.key r.side b st h
      · rw [if_neg hl]
        exact ⟨st, h, rfl⟩
  · rw [if_neg hd]
    exact ⟨st, h, rfl⟩

theorem applyReceipt_keys_nodup {g : GState} (r : Receipt)
    (h : (g.map Prod.fst).Nodup) : ((applyReceipt g r).map Prod.fst).Nodup := by
  unfold applyReceipt
  by_cases hd : r.dest != ""
  · rw [if_pos hd]
    cases counterBallId r.dest with
    | none => exact h
    | some ball =>
      simp only [lockRetryLoop_eq]
      by_cases hl : (r.lockAvail.take 5).any id
      · rw [if_pos hl]
        exact gset_keys_nodup _ _ h
      · rw [if_neg hl]
        exact h
  · rw [if_neg hd]
    exact h

/-- The lifetime invariant behind at-most-once emission: the shared map
has unique keys, the published ball ids are pairwise distinct, and every
published ball's record is present with emitted = true. -/
def goodSys (s : Sys) : Prop :=
  (s.g.map Prod.fst).Nodup ∧
  (s.pubs.map PubItem.ball_id).Nodup ∧
  ∀ b, b ∈ s.pubs.map PubItem.ball_id → ∃ st, gget s.g b = some st ∧ st.emitted = true

theorem mem_filter_keys {g : GState} {p : String × CRec → Bool} {b : String} :
    b ∈ (g.filter p).map Prod.fst ↔ ∃ st, (b, st) ∈ g ∧ p (b, st) = true := by
  constructor
  · intro h
    obtain ⟨⟨b', st⟩, hmem, hfst⟩ := List.mem_map.mp h
    cases hfst
    obtain ⟨hm, hp⟩ := List.mem_filter.mp hmem
    exact ⟨st, hm, hp⟩
  · rintro ⟨st, hm, hp⟩
    exact List.mem_map.mpr ⟨(b, st), List.mem_filter.mpr ⟨hm, hp⟩, rfl⟩

theorem goodSys_pass (thr : Nat) (cfg : List (String × CamCfg)) {s : Sys}
    (h : goodSys s) : goodSys (sysStep thr cfg s .pass) := by
  show goodSys ⟨(aggPass thr cfg s.g).1, s.pubs ++ (aggPass thr cfg s.g).2.1,
    s.kvs ++ (aggPass thr cfg s.g).2.2⟩
  obtain ⟨hk, hp, hmem⟩ := h
  have hnewpubs : ((aggPass thr cfg s.g).2.1).map PubItem.ball_id =
      (s.g.filter (fun e => !e.2.emitted && decide (thr ≤ e.2.count))).map Prod.fst :=
    aggPass_pubs thr cfg s.g
  have hnewnodup : (((aggPass thr cfg s.g).2.1).map PubItem.ball_id).Nodup := by
    rw [hnewpubs]
    exact (hk.sublist ((List.filter_sublist _).map Prod.fst))
  have hdisj : ∀ b, b ∈ s.pubs.map PubItem.ball_id →
      b ∉ ((aggPass thr cfg s.g).2.1).map PubItem.ball_id := by
    intro b hold hnew
    obtain ⟨st, hg, he⟩ := hmem b hold
    rw [hnewpubs] at hnew
    obtain ⟨st', hm', hp'⟩ := mem_filter_keys.mp hnew
    have := gget_of_mem_nodup hk hm'
    rw [hg] at this
    injection this with hst
    subst hst
    simp only [Bool.and_eq_true, Bool.not_eq_true'] at hp'
    rw [he] at hp'
    exact Bool.false_ne_true hp'.1.symm
  refine ⟨?_, ?_, ?_⟩
  · show (((aggPass thr cfg s.g).1).map Prod.fst).Nodup
    rw [aggPass_keys]
    exact hk
  · show ((s.pubs ++ (aggPass thr cfg s.g).2.1).map PubItem.ball_id).Nodup
    rw [List.map_append]
    exact List.Nodup.append hp hnewnodup (fun b hb hb' => hdisj b hb hb')
  · intro b hb
    rw [List.map_append, List.mem_append] at hb
    show ∃ st, gget (aggPass thr cfg s.g).1 b = some st ∧ st.emitted = true
    rcases hb with hold | hnew
    · obtain ⟨st, hg, he⟩ := hmem b hold
      refine ⟨emitUpd thr st, ?_, ?_⟩
      · rw [aggPass_gget, hg]; rfl
      · unfold emitUpd
        simp [he]
    · rw [hnewpubs] at hnew
      obtain ⟨st', hm', hp'⟩ := mem_filter_keys.mp hnew
      have hg := gget_of_mem_nodup hk hm'
      refine ⟨emitUpd thr st', ?_, ?_⟩
      · rw [aggPass_gget, hg]; rfl
      · unfold emitUpd
        rw [if_pos hp']

theorem goodSys_receipt (thr : Nat) (cfg : List (String × CamCfg)) (r : Receipt) {s : Sys}
    (h : goodSys s) : goodSys (sysStep thr cfg s (.receipt r)) := by
  obtain ⟨hk, hp, hmem⟩ := h
  refine ⟨applyReceipt_keys_nodup r hk, hp, ?_⟩
  intro b hb
  obtain ⟨st, hg, he⟩ := hmem b hb
  obtain ⟨st', hg', he'⟩ := applyReceipt_gget_emitted s.g r b st hg
  exact ⟨st', hg', he.symm ▸ he'⟩

theorem goodSys_run (thr : Nat) (cfg : List (String × CamCfg)) (evs : List Ev) :
    goodSys (runSys thr cfg evs) := by
  have hinit : goodSys ⟨[], [], []⟩ := by
    refine ⟨List.nodup_nil, List.nodup_nil, ?_⟩
    intro b hb
    exact absurd hb (by simp)
  have hstep : ∀ (l : List Ev) (s : Sys), goodSys s →
      goodSys (l.foldl (sysStep thr cfg) s) := by
    intro l
    induction l with
    | nil => intro s hs; exact hs
    | cons e t ih =>
      intro s hs
      cases e with
      | pass => exact ih _ (goodSys_pass thr cfg hs)
      | receipt r => exact ih _ (goodSys_receipt thr cfg r hs)
  exact hstep evs _ hinit

/-- Claim C3: (i) one aggregator pass publishes exactly the captures
whose record has emitted = false and count >= emit_threshold (hence a
count of threshold - 1 does not emit and a count of threshold does);
(ii) over a whole process lifetime — any interleaving of worker
receipts and aggregator passes starting from the freshly wiped state —
every capture id is published at most once, because emitted is flipped
inside the lock-guarded critical section before the map is re-read. -/
theorem c3_emit_exactly_once :
    (∀ (thr : Nat) (cfg : List (String × CamCfg)) (g : GState),
      ((aggPass thr cfg g).2.1).map PubItem.ball_id =
        (g.filter (fun e => !e.2.emitted && decide (thr ≤ e.2.count))).map Prod.fst) ∧
    (∀ (thr : Nat) (cfg : List (String × CamCfg)) (ball : String) (st : CRec),
      (aggPass thr cfg [(ball, st)]).2.1 ≠ [] ↔ (st.emitted = false ∧ thr ≤ st.count)) ∧
    (∀ (thr : Nat) (cfg : List (String × CamCfg)) (evs : List Ev) (b : String),
      ((runSys thr cfg evs).pubs.map PubItem.ball_id).count b ≤ 1) := by
  refine ⟨aggPass_pubs, ?_, ?_⟩
  · intro thr cfg ball st
    by_cases hc : (!st.emitted && decide (thr ≤ st.count)) = true
    · simp only [Bool.and_eq_true, Bool.not_eq_true', decide_eq_true_eq] at hc
      constructor
      · intro _; exact hc
      · intro _
        simp [aggPass, hc]
    · constructor
      · intro hne
        exact absurd (by simp [aggPass, hc]) hne
      · intro hyp
        simp only [Bool.and_eq_true, Bool.not_eq_true', decide_eq_true_eq] at hc
        exact absurd hyp (by tauto)
  · intro thr cfg evs b
    exact List.nodup_iff_count_le_one.mp (goodSys_run thr cfg evs).2.1 b

theorem removeAllV0_cons_of (c : Char) (rest : List Char)
    (h : ∀ r : List Char, c = '_' → rest = 'V' :: '0' :: r → False) :
    removeAllV0 (c :: rest) = c :: removeAllV0 rest := by
  rw [removeAllV0.eq_def]
  split
  · rename_i r heq
    injection heq with h1 h2
    exact (h r h1 h2).elim
  · rename_i c' rest' heq
    injection heq with h1 h2
    rw [h1, h2]
  · rename_i heq
    exact absurd heq (by simp)

/-- str.replace "_V0" "" removes every left-to-right non-overlapping
occurrence of "_V0". -/
theorem replaceFuel_V0 (fuel : Nat) (s : List Char) (hf : s.length ≤ fuel) :
    replaceFuel ['_', 'V', '0'] [] fuel s = removeAllV0 s := by
  induction fuel generalizing s with
  | zero =>
    have hnil : s = [] := List.eq_nil_of_length_eq_zero (Nat.le_zero.mp hf)
    subst hnil
    rfl
  | succ fuel ih =>
    cases s with
    | nil => rfl
    | cons c rest =>
      by_cases hp : (['_', 'V', '0'].isPrefixOf (c :: rest)) = true
      · have hsh : c = '_' ∧ rest = 'V' :: '0' :: rest.drop 2 := by
          rw [List.isPrefixOf_iff_prefix, List.prefix_iff_eq_take] at hp
          simp only [List.length_cons, List.length_nil, List.take_succ_cons] at hp
          injection hp with h1 h2
          refine ⟨h1.symm, ?_⟩
          conv =>
            lhs
            rw [← List.take_append_drop 2 rest]
          rw [← h2]
          rfl
        obtain ⟨hc, hrest⟩ := hsh
        subst hc
        rw [replaceFuel, if_pos ⟨hp, by simp⟩]
        simp only [List.nil_append]
        rw [show (['_', 'V', '0'] : List Char).length - 1 = 2 from rfl]
        conv =>
          rhs
          rw [hrest, removeAllV0]
        exact ih (rest.drop 2) (by
          have := List.length_drop 2 rest
          simp only [List.length_cons] at hf
          omega)
      · rw [replaceFuel, if_neg (fun hc => hp hc.1)]
        rw [removeAllV0_cons_of c rest (by
          intro r h1 h2
          subst h1
          subst h2
          exact hp (by simp [List.isPrefixOf]))]
        rw [ih rest (by simp only [List.length_cons] at hf; omega)]

/-- Claim C4 counterexample: for the stored key "A_V0B_V0" the
aggregator's KV key is "AB_FRAMEPATHS" — str.replace removes the inner
"_V0" too — while stripping only the trailing "_V0" would give
"A_V0B_FRAMEPATHS".  The last conjunct shows the emission path of the
aggregator performing exactly this write (with the newline-joined disk
paths as the value). -/
theorem c4_trailing_strip_refuted :
    framepathsKey "A_V0B_V0" = "AB_FRAMEPATHS" ∧
    stripTrailingV0 "A_V0B_V0" ++ "_FRAMEPATHS" = "A_V0B_FRAMEPATHS" ∧
    framepathsKey "A_V0B_V0" ≠ stripTrailingV0 "A_V0B_V0" ++ "_FRAMEPATHS" ∧
    (aggPass 1 [] [("ball1", ⟨1, some "A_V0B_V0", none, false⟩)]).2.2 =
      [("AB_FRAMEPATHS", "")] := by
  decide

theorem framepathsKey_removeAll (key : String) :
    framepathsKey key = String.mk (removeAllV0 key.data) ++ "_FRAMEPATHS" := by
  unfold framepathsKey pyReplace
  rw [show ("_V0" : String).data = ['_', 'V', '0'] from rfl,
    show ("" : String).data = ([] : List Char) from rfl,
    replaceFuel_V0 key.data.length key.data (le_refl _)]

/-- Claim C4 (amended): on emission, the aggregator writes under the key
obtained from the stored key by removing every (left-to-right,
non-overlapping) occurrence of "_V0" — not only a trailing one —
followed by "_FRAMEPATHS", and the value is the newline-joined list of
disk paths. -/
theorem c4_kv_write_removes_all_V0 :
    (∀ key : String,
      framepathsKey key = String.mk (removeAllV0 key.data) ++ "_FRAMEPATHS") ∧
    (∀ (thr : Nat) (cfg : List (String × CamCfg)) (g : GState),
      (aggPass thr cfg g).2.2 =
        ((aggPass thr cfg g).2.1).map
          (fun it => (String.mk (removeAllV0 it.dragonfly_key.data) ++ "_FRAMEPATHS",
            joinNewline it.diskpaths))) := by
  refine ⟨framepathsKey_removeAll, ?_⟩
  intro thr cfg g
  rw [aggPass_kvs]
  exact List.map_congr_left (fun it _ => by rw [framepathsKey_removeAll])

theorem gget_mem {g : GState} {b : String} {st : CRec} (h : gget g b = some st) :
    (b, st) ∈ g := by
  induction g with
  | nil => exact absurd h (by simp [gget])
  | cons e t ih =>
    obtain ⟨ek, ev⟩ := e
    by_cases he : ek = b
    · subst he
      rw [gget, if_pos rfl] at h
      injection h with h
      subst h
      exact List.mem_cons_self _ _
    · rw [gget, if_neg he] at h
      exact List.mem_cons_of_mem _ (ih h)

theorem gset_mem {g : GState} {k : String} {v : CRec} {e : String × CRec}
    (h : e ∈ gset g k v) : e ∈ g ∨ e = (k, v) := by
  induction g with
  | nil => simpa [gset] using h
  | cons e' t ih =>
    obtain ⟨ek, ev⟩ := e'
    by_cases he : ek = k
    · subst he
      rw [gset, if_pos rfl] at h
      rcases List.mem_cons.mp h with heq | ht
      · exact Or.inr heq
      · exact Or.inl (List.mem_cons_of_mem _ ht)
    · rw [gset, if_neg he] at h
      rcases List.mem_cons.mp h with heq | ht
      · exact Or.inl (heq ▸ List.mem_cons_self _ _)
      · rcases ih ht with hl | hr
        · exact Or.inl (List.mem_cons_of_mem _ hl)
        · exact Or.inr hr

/-- No record of the map carries key or side metadata. -/
def noMeta (g : GState) : Prop :=
  ∀ e ∈ g, e.2.dragonfly_key = none ∧ e.2.side = none

theorem noMeta_applyReceipt {g : GState} {r : Receipt} (hg : noMeta g)
    (hk : r.key = "") (hs : r.side = "") : noMeta (applyReceipt g r) := by
  unfold applyReceipt
  by_cases hd : r.dest != ""
  · rw [if_pos hd]
    cases counterBallId r.dest with
    | none => exact hg
    | some ball =>
      simp only [lockRetryLoop_eq]
      by_cases hl : (r.lockAvail.take 5).any id
      · rw [if_pos hl]
        intro e he
        rcases gset_mem he with hin | heq
        · exact hg e hin
        · subst heq
          have hb0 : ((gget g ball).getD CRec.init).dragonfly_key = none ∧
              ((gget g ball).getD CRec.init).side = none := by
            cases hb : gget g ball with
            | none => simp [CRec.init]
            | some st =>
              have := hg (ball, st) (gget_mem hb)
              simpa using this
          simp only [hk, hs]
          simpa using hb0
      · rw [if_neg hl]
        exact hg
  · rw [if_neg hd]
    exact hg

theorem noMeta_aggPass (thr : Nat) (cfg : List (String × CamCfg)) {g : GState}
    (hg : noMeta g) : noMeta (aggPass thr cfg g).1 := by
  induction g with
  | nil => intro e he; exact absurd he (by simp [aggPass])
  | cons e t ih =>
    obtain ⟨b, st⟩ := e
    have hhd := hg (b, st) (List.mem_cons_self _ _)
    have htl : noMeta t := fun e he => hg e (List.mem_cons_of_mem _ he)
    by_cases hc : (!st.emitted && decide (thr ≤ st.count)) = true
    · intro e he
      rw [show (aggPass thr cfg ((b, st) :: t)).1 =
          (b, { st with emitted := true }) :: (aggPass thr cfg t).1 from by
          simp [aggPass, hc]] at he
      rcases List.mem_cons.mp he with heq | ht
      · subst heq
        simpa using hhd
      · exact ih htl e ht
    · intro e he
      rw [show (aggPass thr cfg ((b, st) :: t)).1 = (b, st) :: (aggPass thr cfg t).1 from by
          simp [aggPass, hc]] at he
      rcases List.mem_cons.mp he with heq | ht
      · subst heq
        exact hhd
      · exact ih htl e ht

/-- With no stored metadata, an emitted item carries the defaults. -/
theorem aggPass_pubs_default (thr : Nat) (cfg : List (String × CamCfg)) {g : GState}
    (hg : noMeta g) {it : PubItem} (h : it ∈ (aggPass thr cfg g).2.1) :
    it.dragonfly_key = it.ball_id ++ "_V0" ∧ it.side = "FE" := by
  obtain ⟨st, hmem, _, _, hkey, hside, _, _⟩ := aggPass_pubs_mem thr cfg g it h
  have := hg _ hmem
  simp only at this
  rw [hkey, hside, this.1, this.2]
  exact ⟨rfl, rfl⟩

/-- Boundary "_V0" occurrences cannot straddle the end of a clean ball
id: appending "_V0" to a string without "_V0" and removing all
occurrences returns the string itself. -/
theorem removeAllV0_append_V0 (l : List Char) (h : hasV0 l = false) :
    removeAllV0 (l ++ ['_', 'V', '0']) = l := by
  induction l with
  | nil => rfl
  | cons c rest ih =>
    rw [hasV0] at h
    simp only [Bool.or_eq_false_iff, decide_eq_false_iff_not] at h
    rw [List.cons_append]
    rw [removeAllV0_cons_of c (rest ++ ['_', 'V', '0']) ?side]
    · rw [ih h.2]
    case side =>
      intro r h1 h2
      subst h1
      match rest, h2 with
      | [], h2 => injection h2 with ha _; exact absurd ha (by decide)
      | [a], h2 =>
        injection h2 with _ h2
        injection h2 with hb _
        exact absurd hb (by decide)
      | a :: b :: r2, h2 =>
        injection h2 with ha h2
        injection h2 with hb _
        exact h.1 ⟨rfl, by rw [List.take, List.take, List.take, ha, hb]⟩

/-- Claim C10 counterexample: for the capture id "cap_V01" (which
contains "_V0"), a lifetime with one metadata-free receipt and one
aggregator pass (threshold 1) publishes the default dragonfly_key
"cap_V01_V0" and side "FE" as claimed, but the KV key is
"cap1_FRAMEPATHS" — str.replace also removed the "_V0" inside the
capture id — not "cap_V01_FRAMEPATHS". -/
theorem c10_v0_ball_kv_key_mangled :
    (runSys 1 [] [Ev.receipt ⟨"cap_V01/cam/f.jpg", "", "", [true]⟩, Ev.pass]).pubs.map
        (fun it => (it.ball_id, it.dragonfly_key, it.side)) =
      [("cap_V01", "cap_V01_V0", "FE")] ∧
    (runSys 1 [] [Ev.receipt ⟨"cap_V01/cam/f.jpg", "", "", [true]⟩, Ev.pass]).kvs =
      [("cap1_FRAMEPATHS", "")] ∧
    ("cap1_FRAMEPATHS" : String) ≠ "cap_V01_FRAMEPATHS" := by
  decide

/-- Claim C10 (amended): when no record of a capture ever carried a
non-empty key or side, every event the aggregator publishes for it uses
dragonfly_key = ball_id ++ "_V0" and side = "FE"; the KV write key is
always the stored key with every "_V0" occurrence removed plus
"_FRAMEPATHS", which equals ball_id ++ "_FRAMEPATHS" exactly when
ball_id itself contains no "_V0". -/
theorem c10_default_metadata :
    (∀ (thr : Nat) (cfg : List (String × CamCfg)) (evs : List Ev),
      (∀ r : Receipt, Ev.receipt r ∈ evs → r.key = "" ∧ r.side = "") →
      ∀ it ∈ (runSys thr cfg evs).pubs,
        it.dragonfly_key = it.ball_id ++ "_V0" ∧ it.side = "FE") ∧
    (∀ (thr : Nat) (cfg : List (String × CamCfg)) (evs : List Ev),
      (runSys thr cfg evs).kvs =
        ((runSys thr cfg evs).pubs).map
          (fun it => (framepathsKey it.dragonfly_key, joinNewline it.diskpaths))) ∧
    (∀ b : String, hasV0 b.data = false →
      framepathsKey (b ++ "_V0") = b ++ "_FRAMEPATHS") := by
  refine ⟨?_, ?_, ?_⟩
  · intro thr cfg evs hmeta
    have main : ∀ (l : List Ev) (s : Sys),
        (∀ r : Receipt, Ev.receipt r ∈ l → r.key = "" ∧ r.side = "") →
        noMeta s.g →
        (∀ it ∈ s.pubs, it.dragonfly_key = it.ball_id ++ "_V0" ∧ it.side = "FE") →
        ∀ it ∈ (l.foldl (sysStep thr cfg) s).pubs,
          it.dragonfly_key = it.ball_id ++ "_V0" ∧ it.side = "FE" := by
      intro l
      induction l with
      | nil => intro s _ _ hpub; exact hpub
      | cons e t ih =>
        intro s hl hg hpub
        cases e with
        | pass =>
          refine ih _ (fun r hr => hl r (List.mem_cons_of_mem _ hr))
            (noMeta_aggPass thr cfg hg) ?_
          intro it hit
          rcases List.mem_append.mp (by simpa [sysStep] using hit) with hold | hnew
          · exact hpub it hold
          · exact aggPass_pubs_default thr cfg hg hnew
        | receipt r =>
          have hr := hl r (List.mem_cons_self _ _)
          exact ih _ (fun r' hr' => hl r' (List.mem_cons_of_mem _ hr'))
            (noMeta_applyReceipt hg hr.1 hr.2) hpub
    exact main evs ⟨[], [], []⟩ hmeta (fun e he => absurd he (by simp))
      (fun it hit => absurd hit (by simp))
  · intro thr cfg evs
    have main : ∀ (l : List Ev) (s : Sys),
        s.kvs = s.pubs.map
          (fun it => (framepathsKey it.dragonfly_key, joinNewline it.diskpaths)) →
        (l.foldl (sysStep thr cfg) s).kvs =
          ((l.foldl (sysStep thr cfg) s).pubs).map
            (fun it => (framepathsKey it.dragonfly_key, joinNewline it.diskpaths)) := by
      intro l
      induction l with
      | nil => intro s hs; exact hs
      | cons e t ih =>
        intro s hs
        cases e with
        | pass =>
          refine ih _ ?_
          show s.kvs ++ (aggPass thr cfg s.g).2.2 =
            (s.pubs ++ (aggPass thr cfg s.g).2.1).map _
          rw [List.map_append, hs, aggPass_kvs]
        | receipt r => exact ih _ hs
    exact main evs ⟨[], [], []⟩ rfl
  · intro b hb
    rw [framepathsKey_removeAll (b ++ "_V0")]
    rw [String.data_append, show ("_V0" : String).data = ['_', 'V', '0'] from rfl]
    rw [removeAllV0_append_V0 b.data hb]

theorem tailerInv_enqueue {s0 : String} {s : SessState} (h : tailerInv s0 s) {n : String}
    (hn : s.lastName < n) (e : Nat) : tailerInv s0 ⟨n, e, s.out ++ [n]⟩ := by
  obtain ⟨hp, hle, hs0, hgt⟩ := h
  refine ⟨?_, ?_, ?_, ?_⟩
  · rw [List.pairwise_append]
    refine ⟨hp, List.pairwise_singleton _ _, ?_⟩
    intro a ha b hb
    rw [List.mem_singleton] at hb
    subst hb
    exact lt_of_le_of_lt (hle a ha) hn
  · intro x hx
    rcases List.mem_append.mp hx with hx | hx
    · exact le_of_lt (lt_of_le_of_lt (hle x hx) hn)
    · rw [List.mem_singleton] at hx
      subst hx
      exact le_refl _
  · exact le_of_lt (lt_of_le_of_lt hs0 hn)
  · intro x hx
    rcases List.mem_append.mp hx with hx | hx
    · exact hgt x hx
    · rw [List.mem_singleton] at hx
      subst hx
      exact lt_of_le_of_lt hs0 hn

theorem tailerInv_mark {s0 : String} {s : SessState} (h : tailerInv s0 s) {n : String}
    (hn : s.lastName < n) (e : Nat) : tailerInv s0 ⟨n, e, s.out⟩ := by
  obtain ⟨hp, hle, hs0, hgt⟩ := h
  exact ⟨hp, fun x hx => le_of_lt (lt_of_le_of_lt (hle x hx) hn),
    le_of_lt (lt_of_le_of_lt hs0 hn), hgt⟩

theorem tailerInv_backlogStep (mf : Nat) (ready : String → Bool) (s0 : String)
    {s : SessState} (h : tailerInv s0 s) (n : String) :
    tailerInv s0 (backlogStep mf ready s n) ∧
      s.lastName ≤ (backlogStep mf ready s n).lastName := by
  unfold backlogStep
  by_cases h1 : mf ≠ 0 ∧ mf ≤ s.enqueued
  · rw [if_pos h1]
    exact ⟨h, le_refl _⟩
  · rw [if_neg h1]
    by_cases h2 : s.lastName < n
    · rw [if_pos h2]
      by_cases h3 : ready n
      · rw [if_pos h3]
        exact ⟨tailerInv_enqueue h h2 _, le_of_lt h2⟩
      · rw [if_neg h3]
        exact ⟨h, le_refl _⟩
    · rw [if_neg h2]
      exact ⟨h, le_refl _⟩

theorem tailerInv_tailStep (mf : Nat) (ready : String → Bool) (s0 : String)
    {s : SessState} (h : tailerInv s0 s) (n : String) :
    tailerInv s0 (tailStep mf ready s n) ∧
      s.lastName ≤ (tailStep mf ready s n).lastName := by
  unfold tailStep
  by_cases h1 : mf ≠ 0 ∧ mf ≤ s.enqueued
  · rw [if_pos h1]
    exact ⟨h, le_refl _⟩
  · rw [if_neg h1]
    by_cases h2 : s.lastName < n
    · rw [if_pos h2]
      by_cases h3 : ready n
      · rw [if_pos h3]
        by_cases h4 : mf = 0 ∨ s.enqueued < mf
        · rw [if_pos h4]
          exact ⟨tailerInv_enqueue h h2 _, le_of_lt h2⟩
        · rw [if_neg h4]
          exact ⟨tailerInv_mark h h2 _, le_of_lt h2⟩
      · rw [if_neg h3]
        exact ⟨h, le_refl _⟩
    · rw [if_neg h2]
      exact ⟨h, le_refl _⟩

theorem tailerInv_runSession (mf : Nat) (s0 : String) (backlog : ScanPass)
    (tails : List ScanPass) : tailerInv s0 (runSession mf s0 backlog tails) := by
  have hfoldB : ∀ (names : List String) (ready : String → Bool) (s : SessState),
      tailerInv s0 s → tailerInv s0 (names.foldl (backlogStep mf ready) s) := by
    intro names ready
    induction names with
    | nil => intro s hs; exact hs
    | cons n t ih => intro s hs; exact ih _ (tailerInv_backlogStep mf ready s0 hs n).1
  have hfoldT : ∀ (names : List String) (ready : String → Bool) (s : SessState),
      tailerInv s0 s → tailerInv s0 (names.foldl (tailStep mf ready) s) := by
    intro names ready
    induction names with
    | nil => intro s hs; exact hs
    | cons n t ih => intro s hs; exact ih _ (tailerInv_tailStep mf ready s0 hs n).1
  have hinit : tailerInv s0 ⟨s0, 0, []⟩ := by
    refine ⟨List.Pairwise.nil, ?_, le_refl _, ?_⟩
    · intro x hx; exact absurd hx (by simp)
    · intro x hx; exact absurd hx (by simp)
  have hpasses : ∀ (ps : List ScanPass) (s : SessState),
      tailerInv s0 s → tailerInv s0 (ps.foldl (runTail mf) s) := by
    intro ps
    induction ps with
    | nil => intro s hs; exact hs
    | cons p t ih => intro s hs; exact ih _ (hfoldT p.names p.ready s hs)
  exact hpasses tails _ (hfoldB backlog.names backlog.ready _ hinit)

/-- Claim C8: within one sender session (backlog scan then any number
of tail scans, each with its own completeness-check outcomes), the
sequence of enqueued names is strictly increasing, hence no filename is
ever enqueued twice; a step changes the queue only for a name strictly
above the current last_name, every enqueued name is strictly above
start_after, and last_name never decreases at any step of either
phase. -/
theorem c8_no_duplicate_enqueue (mf : Nat) (s0 : String) (backlog : ScanPass)
    (tails : List ScanPass) :
    List.Pairwise (· < ·) (runSession mf s0 backlog tails).out ∧
    (runSession mf s0 backlog tails).out.Nodup ∧
    (∀ x ∈ (runSession mf s0 backlog tails).out, s0 < x) ∧
    s0 ≤ (runSession mf s0 backlog tails).lastName ∧
    (∀ (ready : String → Bool) (s : SessState) (n : String),
      ((backlogStep mf ready s n).out ≠ s.out → s.lastName < n) ∧
      ((tailStep mf ready s n).out ≠ s.out → s.lastName < n) ∧
      s.lastName ≤ (backlogStep mf ready s n).lastName ∧
      s.lastName ≤ (tailStep mf ready s n).lastName) := by
  obtain ⟨hp, hle, hs0, hgt⟩ := tailerInv_runSession mf s0 backlog tails
  refine ⟨hp, hp.imp (fun h => ne_of_lt h), hgt, hs0, ?_⟩
  intro ready s n
  refine ⟨?_, ?_, ?_, ?_⟩
  · intro hch
    by_contra hlt
    apply hch
    unfold backlogStep
    by_cases h1 : mf ≠ 0 ∧ mf ≤ s.enqueued
    · rw [if_pos h1]
    · rw [if_neg h1, if_neg hlt]
  · intro hch
    by_contra hlt
    apply hch
    unfold tailStep
    by_cases h1 : mf ≠ 0 ∧ mf ≤ s.enqueued
    · rw [if_pos h1]
    · rw [if_neg h1, if_neg hlt]
  · unfold backlogStep
    by_cases h1 : mf ≠ 0 ∧ mf ≤ s.enqueued
    · rw [if_pos h1]
    · rw [if_neg h1]
      by_cases h2 : s.lastName < n
      · rw [if_pos h2]
        by_cases h3 : ready n
        · rw [if_pos h3]
          exact le_of_lt h2
        · rw [if_neg h3]
      · rw [if_neg h2]
  · unfold tailStep
    by_cases h1 : mf ≠ 0 ∧ mf ≤ s.enqueued
    · rw [if_pos h1]
    · rw [if_neg h1]
      by_cases h2 : s.lastName < n
      · rw [if_pos h2]
        by_cases h3 : ready n
        · rw [if_pos h3]
          by_cases h4 : mf = 0 ∨ s.enqueued < mf
          · rw [if_pos h4]
            exact le_of_lt h2
          · rw [if_neg h4]
            exact le_of_lt h2
        · rw [if_neg h3]
      · rw [if_neg h2]

/-- Claim C5 counterexample: an accepted trigger that carries key
"K_V0" and side "FE" spawns a sender whose argument vector contains no
--dragonfly-key and no --side flag (the bridge never reads those
message fields), and whose --dest-path third component is the basename
of the configured src directory ("srcA"), not the camera id
("camera01"). -/
theorem c5_key_side_not_passed :
    processTrigger [("camera01", ⟨"/data/srcA", "/dst"⟩)]
        ⟨some "frame_camera01_000000042.jpg", some "ball1", some "K_V0", some "FE", false⟩ =
      some [⟨"camera01", 50001,
        ["python3", "pyfast_send_aftername_v2.py",
         "--src-dir", "/data/srcA", "--start-after", "frame_camera01_000000042.jpg",
         "--host", "192.168.5.101", "--port", "50001", "--pattern", "*.jpg",
         "--conns", "8", "--lookahead", "4", "--stable-ms", "1", "--stable-passes", "1",
         "--max-files", "899", "--once", "--verbose", "--cleanup-part-files",
         "--dest-path", "/dst/ball1/srcA"]⟩] ∧
    ("--dragonfly-key" : String) ∉
      mkSenderCmd "/data/srcA" "frame_camera01_000000042.jpg" 50001 "/dst/ball1/srcA" ∧
    ("--side" : String) ∉
      mkSenderCmd "/data/srcA" "frame_camera01_000000042.jpg" 50001 "/dst/ball1/srcA" ∧
    ("/dst/ball1/srcA" : String) ≠ "/dst/ball1/camera01" := by
  decide

theorem isDigitChar_bounds {c : Char} (h : isDigitChar c = true) :
    48 ≤ c.toNat ∧ c.toNat ≤ 57 := by
  have hb := of_decide_eq_true h
  exact ⟨hb.1, hb.2⟩

theorem charToNat_inj {a b : Char} (h : a.toNat = b.toNat) : a = b := by
  have := congrArg Char.ofNat h
  rwa [Char.ofNat_toNat, Char.ofNat_toNat] at this

theorem digitChar_toNat {d : Nat} (h : d < 10) : (digitChar d).toNat = 48 + d := by
  interval_cases d <;> decide

theorem isDigitChar_digitChar {d : Nat} (h : d < 10) : isDigitChar (digitChar d) = true := by
  interval_cases d <;> decide

theorem digitsToNat_shift (l : List Char) (acc : Nat) :
    List.foldl (fun a c => a * 10 + (c.toNat - 48)) acc l =
      acc * 10 ^ l.length + digitsToNat l := by
  induction l generalizing acc with
  | nil => simp [digitsToNat]
  | cons c r ih =>
    rw [List.foldl_cons, ih]
    conv =>
      rhs
      rw [digitsToNat, List.foldl_cons, ih]
    rw [List.length_cons, pow_succ]
    ring

theorem digitsToNat_cons (c : Char) (r : List Char) :
    digitsToNat (c :: r) = (c.toNat - 48) * 10 ^ r.length + digitsToNat r := by
  rw [digitsToNat, List.foldl_cons, digitsToNat_shift]
  ring_nf

theorem digitsToNat_lt (l : List Char) (h : l.all isDigitChar = true) :
    digitsToNat l < 10 ^ l.length := by
  induction l with
  | nil => simp [digitsToNat]
  | cons c r ih =>
    simp only [List.all_cons, Bool.and_eq_true] at h
    have hc := isDigitChar_bounds h.1
    have hr := ih h.2
    have hB : (0 : Nat) < 10 ^ r.length := Nat.pow_pos (by norm_num)
    rw [digitsToNat_cons, List.length_cons, pow_succ]
    have hv : c.toNat - 48 ≤ 9 := by omega
    nlinarith

theorem digits_inj (d1 : List Char) : ∀ (d2 : List Char), d1.length = d2.length →
    d1.all isDigitChar = true → d2.all isDigitChar = true →
    digitsToNat d1 = digitsToNat d2 → d1 = d2 := by
  induction d1 with
  | nil =>
    intro d2 hlen _ _ _
    cases d2 with
    | nil => rfl
    | cons c r => exact absurd hlen (by simp)
  | cons c1 r1 ih =>
    intro d2 hlen ha1 ha2 hval
    cases d2 with
    | nil => exact absurd hlen (by simp)
    | cons c2 r2 =>
      simp only [List.length_cons] at hlen
      have hrlen : r1.length = r2.length := by omega
      simp only [List.all_cons, Bool.and_eq_true] at ha1 ha2
      have hb1 := isDigitChar_bounds ha1.1
      have hb2 := isDigitChar_bounds ha2.1
      have hl1 := digitsToNat_lt r1 ha1.2
      have hl2 := digitsToNat_lt r2 ha2.2
      rw [digitsToNat_cons, digitsToNat_cons, hrlen] at hval
      have hB : (0 : Nat) < 10 ^ r2.length := Nat.pow_pos (by norm_num)
      rw [hrlen] at hl1
      have hv : c1.toNat - 48 = c2.toNat - 48 := by
        have e1 : (10 ^ r2.length * (c1.toNat - 48) + digitsToNat r1) / 10 ^ r2.length =
            (c1.toNat - 48) + digitsToNat r1 / 10 ^ r2.length := Nat.mul_add_div hB _ _
        have e2 : (10 ^ r2.length * (c2.toNat - 48) + digitsToNat r2) / 10 ^ r2.length =
            (c2.toNat - 48) + digitsToNat r2 / 10 ^ r2.length := Nat.mul_add_div hB _ _
        rw [Nat.div_eq_of_lt hl1] at e1
        rw [Nat.div_eq_of_lt hl2] at e2
        rw [Nat.mul_comm (c1.toNat - 48), Nat.mul_comm (c2.toNat - 48)] at hval
        rw [hval] at e1
        omega
      have hc : c1 = c2 := charToNat_inj (by omega)
      have hrest : digitsToNat r1 = digitsToNat r2 := by
        rw [hv] at hval
        omega
      rw [hc, ih r2 hrlen ha1.2 ha2.2 hrest]

theorem digitsToNat_zeros_append (k : Nat) (l : List Char) :
    digitsToNat (List.replicate k '0' ++ l) = digitsToNat l := by
  induction k with
  | zero => simp
  | succ k ih =>
    rw [List.replicate_succ, List.cons_append, digitsToNat, List.foldl_cons]
    rw [show (0 : Nat) * 10 + (('0' : Char).toNat - 48) = 0 from by decide]
    exact ih

theorem natToDigitsRev_all (fuel : Nat) : ∀ n, (natToDigitsRev fuel n).all isDigitChar = true := by
  induction fuel with
  | zero => intro n; rfl
  | succ fuel ih =>
    intro n
    rw [natToDigitsRev]
    by_cases h : n < 10
    · rw [if_pos h]
      simp [isDigitChar_digitChar h]
    · rw [if_neg h]
      simp [List.all_cons, ih, isDigitChar_digitChar (Nat.mod_lt n (by norm_num))]

theorem natToDigitsRev_val (fuel : Nat) : ∀ n, n < 10 ^ fuel →
    digitsToNat (natToDigitsRev fuel n).reverse = n := by
  induction fuel with
  | zero =>
    intro n h
    simp only [pow_zero, Nat.lt_one_iff] at h
    subst h
    rfl
  | succ fuel ih =>
    intro n h
    rw [natToDigitsRev]
    by_cases hn : n < 10
    · rw [if_pos hn]
      rw [show ([digitChar n] : List Char).reverse = [digitChar n] from rfl]
      rw [digitsToNat, List.foldl_cons, List.foldl_nil, digitChar_toNat hn]
      omega
    · rw [if_neg hn, List.reverse_cons]
      have hdiv : n / 10 < 10 ^ fuel := by
        rw [pow_succ] at h
        exact (Nat.div_lt_iff_lt_mul (by norm_num)).mpr h
      rw [digitsToNat, List.foldl_append, List.foldl_cons, List.foldl_nil]
      have hval := ih (n / 10) hdiv
      rw [digitsToNat] at hval
      rw [hval, digitChar_toNat (Nat.mod_lt n (by norm_num))]
      omega

theorem natToDigitsRev_len (fuel : Nat) : ∀ n k, 1 ≤ k → n < 10 ^ k →
    (natToDigitsRev fuel n).length ≤ k := by
  induction fuel with
  | zero => intro n k _ _; simp [natToDigitsRev]
  | succ fuel ih =>
    intro n k hk h
    rw [natToDigitsRev]
    by_cases hn : n < 10
    · rw [if_pos hn]
      simpa using hk
    · rw [if_neg hn, List.length_cons]
      have hk2 : 2 ≤ k := by
        by_contra hlt
        have hk1 : k = 1 := by omega
        subst hk1
        rw [pow_one] at h
        omega
      have hdiv : n / 10 < 10 ^ (k - 1) := by
        have hsplit : 10 ^ k = 10 ^ (k - 1) * 10 := by
          conv =>
            lhs
            rw [show k = (k - 1) + 1 from by omega]
          rw [pow_succ]
        rw [hsplit] at h
        exact (Nat.div_lt_iff_lt_mul (by norm_num)).mpr h
      have := ih (n / 10) (k - 1) (by omega) hdiv
      omega

theorem zeroPad9_facts (n : Nat) (h : n < 10 ^ 9) :
    (zeroPad 9 n).data.length = 9 ∧ (zeroPad 9 n).data.all isDigitChar = true ∧
      digitsToNat (zeroPad 9 n).data = n := by
  have hfuel : n < 10 ^ (n + 1) :=
    lt_of_lt_of_le (Nat.lt_pow_self (by norm_num) n)
      (Nat.pow_le_pow_right (by norm_num) (Nat.le_succ n))
  have hlen : ((natToDigitsRev (n + 1) n).reverse).length ≤ 9 := by
    rw [List.length_reverse]
    exact natToDigitsRev_len (n + 1) n 9 (by norm_num) h
  refine ⟨?_, ?_, ?_⟩
  · show (List.replicate (9 - _) '0' ++ _).length = 9
    rw [List.length_append, List.length_replicate]
    omega
  · show (List.replicate (9 - _) '0' ++ _).all isDigitChar = true
    rw [List.all_append, Bool.and_eq_true]
    constructor
    · rw [List.all_eq_true]
      intro c hc
      rw [List.eq_of_mem_replicate hc]
      decide
    · rw [List.all_eq_true]
      intro c hc
      have := natToDigitsRev_all (n + 1) n
      rw [List.all_eq_true] at this
      exact this c (List.mem_reverse.mp hc)
  · show digitsToNat (List.replicate (9 - _) '0' ++ _) = n
    rw [digitsToNat_zeros_append]
    exact natToDigitsRev_val (n + 1) n hfuel

/-- The 9-digit group of an accepted frame_id survives the int() +
zero-pad round trip: the suffix embedded into start_after is exactly the
extracted digit group. -/
theorem zeroPad9_roundtrip (d : List Char) (hlen : d.length = 9)
    (hdig : d.all isDigitChar = true) : zeroPad 9 (digitsToNat d) = String.mk d := by
  have hn : digitsToNat d < 10 ^ 9 := by
    rw [← hlen]
    exact digitsToNat_lt d hdig
  obtain ⟨h1, h2, h3⟩ := zeroPad9_facts (digitsToNat d) hn
  have hdata := digits_inj (zeroPad 9 (digitsToNat d)).data d (by rw [h1, hlen]) h2 hdig
    (by rw [h3])
  calc zeroPad 9 (digitsToNat d) = String.mk (zeroPad 9 (digitsToNat d)).data := rfl
    _ = String.mk d := congrArg String.mk hdata

theorem frameMatch_some {l d : List Char} (h : frameMatch l = some d) :
    d.length = 9 ∧ d.all isDigitChar = true := by
  unfold frameMatch at h
  split at h
  · rename_i rest
    split at h
    · exact absurd h (by simp)
    · split at h
      · split at h
        · rename_i hcond
          injection h with h
          subst h
          exact ⟨hcond.1, hcond.2.1⟩
        · exact absurd h (by simp)
      · exact absurd h (by simp)
  · exact absurd h (by simp)

theorem launchGo_enumFrom (suffix ball : String) (l : List (String × CamCfg)) :
    ∀ idx, launchGo suffix ball idx l =
      (List.enumFrom idx l).filterMap (fun p =>
        if p.2.2.src ≠ "" ∧ p.2.2.dest_path ≠ "" then
          some ⟨p.2.1, 50001 + p.1,
            mkSenderCmd p.2.2.src ("frame_" ++ p.2.1 ++ "_" ++ suffix ++ ".jpg")
              (50001 + p.1)
              (construct_dest_path p.2.2.dest_path ball (pyBasename (pyNormPath p.2.2.src)))⟩
        else none) := by
  induction l with
  | nil => intro idx; rfl
  | cons e t ih =>
    intro idx
    obtain ⟨cam, cfg⟩ := e
    rw [launchGo, List.enumFrom, List.filterMap_cons]
    by_cases h1 : cfg.src = ""
    · rw [if_pos h1]
      simp only [h1, ih (idx + 1)]
      rw [if_neg (by simp)]
    · rw [if_neg h1]
      by_cases h2 : cfg.dest_path = ""
      · rw [if_pos h2]
        simp only [h2, ih (idx + 1)]
        rw [if_neg (by simp [h1])]
      · rw [if_neg h2]
        rw [if_pos (by exact ⟨h1, h2⟩), ih (idx + 1)]

/-- Claim C5 (amended): an accepted trigger (isStopped false, frame_id
matching the 9-digit pattern) spawns exactly one sender per camera that
has both src and dest_path configured, at port 50001 + its index in the
key-sorted camera list (indices of skipped cameras are consumed too),
with start_after = frame_<camera>_<suffix>.jpg where the suffix is
exactly the digit group of the trigger's frame_id, and destination path
<camera.dest_path>/<ball_id>/<basename(normpath(camera.src))>.  No
key/side metadata is passed to the senders (see the counterexample). -/
theorem c5_launch_plan :
    (∀ (cameras : List (String × CamCfg)) (suffix ball : String),
      launch_senders_with_suffix cameras suffix ball =
        (List.enumFrom 0 (sortByKey cameras)).filterMap (fun p =>
          if p.2.2.src ≠ "" ∧ p.2.2.dest_path ≠ "" then
            some ⟨p.2.1, 50001 + p.1,
              mkSenderCmd p.2.2.src ("frame_" ++ p.2.1 ++ "_" ++ suffix ++ ".jpg")
                (50001 + p.1)
                (construct_dest_path p.2.2.dest_path ball
                  (pyBasename (pyNormPath p.2.2.src)))⟩
          else none)) ∧
    (∀ (l d : List Char), frameMatch l = some d →
      zeroPad 9 (digitsToNat d) = String.mk d) ∧
    (∀ (cameras : List (String × CamCfg)) (msg : TriggerMsg) (cmds : List SenderCmd),
      processTrigger cameras msg = some cmds →
      msg.isStopped = false ∧ ∃ fid num, msg.frame_id = some fid ∧
        parse_frame_number_from_id fid = some num ∧
        cmds = launch_senders_with_suffix cameras (zeroPad 9 num)
          (msg.ball_id.getD "default")) := by
  refine ⟨?_, ?_, ?_⟩
  · intro cameras suffix ball
    exact launchGo_enumFrom suffix ball (sortByKey cameras) 0
  · intro l d h
    obtain ⟨h1, h2⟩ := frameMatch_some h
    exact zeroPad9_roundtrip d h1 h2
  · intro cameras msg cmds h
    unfold processTrigger at h
    by_cases hst : msg.isStopped
    · rw [if_pos hst] at h
      exact absurd h (by simp)
    · rw [if_neg hst] at h
      refine ⟨by simpa using hst, ?_⟩
      cases hf : msg.frame_id with
      | none =>
        rw [hf] at h
        exact absurd h (by simp)
      | some fid =>
        rw [hf] at h
        simp only [] at h
        cases hp : parse_frame_number_from_id fid with
        | none =>
          rw [hp] at h
          exact absurd h (by simp)
        | some num =>
          rw [hp] at h
          injection h with h
          exact ⟨fid, num, rfl, hp, h.symm⟩

/-- Witness for c5_launch_plan at concrete inputs. -/
theorem c5_launch_plan_witness :
    zeroPad 9 (digitsToNat ("000000042".data)) = "000000042" ∧
    ((⟨some "frame_camera01_000000042.jpg", some "ball1", none, none, false⟩ :
        TriggerMsg).isStopped = false ∧
      ∃ fid num,
        (⟨some "frame_camera01_000000042.jpg", some "ball1", none, none, false⟩ :
          TriggerMsg).frame_id = some fid ∧
        parse_frame_number_from_id fid = some num ∧
        launch_senders_with_suffix [("camera01", ⟨"/data/srcA", "/dst"⟩)] "000000042" "ball1" =
          launch_senders_with_suffix [("camera01", ⟨"/data/srcA", "/dst"⟩)] (zeroPad 9 num)
            ((⟨some "frame_camera01_000000042.jpg", some "ball1", none, none, false⟩ :
              TriggerMsg).ball_id.getD "default")) :=
  ⟨c5_launch_plan.2.1 "frame_camera01_000000042.jpg".data "000000042".data (by decide),
   c5_launch_plan.2.2 [("camera01", ⟨"/data/srcA", "/dst"⟩)]
     ⟨some "frame_camera01_000000042.jpg", some "ball1", none, none, false⟩
     (launch_senders_with_suffix [("camera01", ⟨"/data/srcA", "/dst"⟩)] "000000042" "ball1")
     (by decide)⟩

/-- Witness for c8_no_duplicate_enqueue at a concrete session: two scans
of ["a.jpg", "b.jpg", "b.jpg"] with everything ready enqueue without
duplicates, and the enqueue-implies-fresh implication fires at a
concrete step. -/
theorem c8_no_duplicate_enqueue_witness :
    (runSession 0 "" ⟨["a.jpg", "b.jpg", "b.jpg"], fun _ => true⟩
      [⟨["a.jpg", "b.jpg"], fun _ => true⟩]).out.Nodup ∧
    ("" : String) ≤ (runSession 0 "" ⟨["a.jpg", "b.jpg", "b.jpg"], fun _ => true⟩
      [⟨["a.jpg", "b.jpg"], fun _ => true⟩]).lastName ∧
    ("" : String) < "a.jpg" :=
  ⟨(c8_no_duplicate_enqueue 0 "" ⟨["a.jpg", "b.jpg", "b.jpg"], fun _ => true⟩
      [⟨["a.jpg", "b.jpg"], fun _ => true⟩]).2.1,
   (c8_no_duplicate_enqueue 0 "" ⟨["a.jpg", "b.jpg", "b.jpg"], fun _ => true⟩
      [⟨["a.jpg", "b.jpg"], fun _ => true⟩]).2.2.2.1,
   ((c8_no_duplicate_enqueue 0 "" ⟨["a.jpg", "b.jpg", "b.jpg"], fun _ => true⟩
      [⟨["a.jpg", "b.jpg"], fun _ => true⟩]).2.2.2.2 (fun _ => true) ⟨"", 0, []⟩
      "a.jpg").1 (by
        have hlt : ("" : String) < "a.jpg" := by
          rw [String.lt_iff_toList_lt]
          decide
        simp [backlogStep, hlt])⟩

/-- Witness for c10_default_metadata at a concrete lifetime: one
metadata-free receipt for capture "cap" and one pass with threshold 1;
the published item carries the defaults, and the clean-ball KV-key
equation holds at "cap". -/
theorem c10_default_metadata_witness :
    (∀ it ∈ (runSys 1 [] [Ev.receipt ⟨"cap/cam/f.jpg", "", "", [true]⟩, Ev.pass]).pubs,
      it.dragonfly_key = it.ball_id ++ "_V0" ∧ it.side = "FE") ∧
    framepathsKey ("cap" ++ "_V0") = "cap" ++ "_FRAMEPATHS" :=
  ⟨c10_default_metadata.1 1 [] [Ev.receipt ⟨"cap/cam/f.jpg", "", "", [true]⟩, Ev.pass]
      (by
        intro r hr
        simp only [List.mem_cons, List.not_mem_nil, or_false] at hr
        rcases hr with h | h
        · injection h with h
          subst h
          exact ⟨rfl, rfl⟩
        · exact Ev.noConfusion h),
   c10_default_metadata.2.2 "cap" (by decide)⟩

/-- Claim C9: the receiver joins out_dir with the received dest_path
verbatim and normalizes nothing: a well-formed record (all caps
respected) whose dest_path is "../../etc/evil.jpg" is written and
acknowledged at "/data/cam01/../../etc/evil.jpg", whose normalized form
"/etc/evil.jpg" lies outside out_dir = "/data/cam01". -/
theorem c9_dest_path_traversal_write :
    recvStep "/data/cam01" true
        (encodeHeader ⟨strBytes "evil.jpg", strBytes "../../etc/evil.jpg", [], [], 3⟩ ++
          [7, 8, 9]) =
      ⟨[.createPart "/data/cam01/../../etc/evil.jpg.part",
        .writeRename "/data/cam01/../../etc/evil.jpg" [7, 8, 9]], 1, .ok []⟩ ∧
    final_path "/data/cam01" true "evil.jpg" "../../etc/evil.jpg" =
      pyJoin "/data/cam01" "../../etc/evil.jpg" ∧
    ".." ∈ splitSlash "../../etc/evil.jpg" ∧
    pyNormPath "/data/cam01/../../etc/evil.jpg" = "/etc/evil.jpg" ∧
    strStartsWith (pyNormPath "/data/cam01/../../etc/evil.jpg")
      (pyNormPath "/data/cam01" ++ "/") = false ∧
    pyNormPath "/data/cam01/../../etc/evil.jpg" ≠ pyNormPath "/data/cam01" := by
  decide

/-- Claim C1 (code_bug evidence): for the 8388609-byte source file
c1File (8 MiB of zero bytes then one 0x01 byte), the sender's payload
phase completes and reads the final ACK (ok = true), the receiver
acknowledges (acks = 1) and renames the received file into final_path —
yet the stored content c1Stored ends in 0x00 instead of 0x01 and is not
the source payload.  The payload is larger than the sender's 8 MiB
zero-copy chunk, so this refutes byte-for-byte delivery for the
oversize/partial-send path. -/
theorem c1_oversize_transfer_acked_but_corrupted :
    (send_file_payload c1File).ok = true ∧
    SEND_CHUNK < c1File.length ∧
    (recvStep "/dst/cam01" true
      (encodeHeader c1Record ++ (send_file_payload c1File).wire)).acks = 1 ∧
    (recvStep "/dst/cam01" true
      (encodeHeader c1Record ++ (send_file_payload c1File).wire)).effects =
      [.createPart "/dst/cam01/capA/cam01/a.jpg.part",
       .writeRename "/dst/cam01/capA/cam01/a.jpg" c1Stored] ∧
    c1Stored ≠ c1File := by
  have hC : SEND_CHUNK = 8388608 := by decide
  have hfile : c1File = List.replicate SEND_CHUNK 0 ++ [1] := rfl
  have hstored : c1Stored = List.replicate SEND_CHUNK 0 ++ [0] := rfl
  have hfl : c1File.length = SEND_CHUNK + 1 := by
    rw [hfile, List.length_append, List.length_replicate, List.length_singleton]
  have hne : c1File ≠ [] := by
    intro h
    have h2 : c1File.length = ([] : List Byte).length := congrArg List.length h
    rw [hfl, List.length_nil] at h2
    omega
  have hsend := send_file_payload_eq c1File hne
  have hmin : min c1File.length SEND_CHUNK = SEND_CHUNK := by
    rw [hfl]; omega
  have htake : c1File.take SEND_CHUNK = List.replicate SEND_CHUNK 0 := by
    rw [hfile]
    exact List.take_left' (List.length_replicate _ _)
  have hwire : (send_file_payload c1File).wire =
      List.replicate SEND_CHUNK 0 ++ c1File := by
    rw [hsend, hmin, htake]
  have hn1 : (strBytes "a.jpg").length ≤ MAX_NAME := by decide
  have hn2 : (strBytes "capA/cam01/a.jpg").length ≤ MAX_DEST := by decide
  have hn3 : ([] : List Byte).length ≤ MAX_DRAGONFLY_KEY := by decide
  have hn4 : ([] : List Byte).length ≤ MAX_SIDE := by decide
  have hn5 : c1File.length < 2 ^ 64 := by rw [hfl, hC]; decide
  have hrec : c1Record = ⟨strBytes "a.jpg", strBytes "capA/cam01/a.jpg", [], [],
      c1File.length⟩ := rfl
  have hparse : parseHeader (encodeHeader c1Record ++ (send_file_payload c1File).wire) =
      .ok (⟨strBytes "a.jpg", strBytes "capA/cam01/a.jpg", [], [], c1File.length⟩,
        (send_file_payload c1File).wire) := by
    rw [hrec]
    exact parseHeader_encodeHeader _ _ hn1 hn2 hn3 hn4 hn5
  have hfp : final_path "/dst/cam01" true (pyDecode (strBytes "a.jpg"))
      (pyDecode (strBytes "capA/cam01/a.jpg")) = "/dst/cam01/capA/cam01/a.jpg" := by
    decide
  have hwlen : (send_file_payload c1File).wire.length = SEND_CHUNK + (SEND_CHUNK + 1) := by
    rw [hwire, List.length_append, List.length_replicate, hfl]
  have hle : c1File.length ≤ (send_file_payload c1File).wire.length := by
    rw [hfl, hwlen]; omega
  have hcontent : (send_file_payload c1File).wire.take c1File.length = c1Stored := by
    rw [hwire, hfl, hfile, hstored, List.take_append_eq_append_take]
    rw [List.take_replicate, List.length_replicate]
    have h1 : (SEND_CHUNK + 1) ⊓ SEND_CHUNK = SEND_CHUNK := by omega
    have h2 : SEND_CHUNK + 1 - SEND_CHUNK = 1 := by omega
    rw [h1, h2, List.take_append_eq_append_take, List.take_replicate, List.length_replicate]
    have h3 : 1 ⊓ SEND_CHUNK = 1 := by rw [hC]; omega
    have h4 : 1 - SEND_CHUNK = 0 := by rw [hC]
    rw [h3, h4, List.take_zero, List.append_nil]
    rfl
  have hpart : "/dst/cam01/capA/cam01/a.jpg" ++ ".part" =
      "/dst/cam01/capA/cam01/a.jpg.part" := by decide
  have hstep := recvStep_ok "/dst/cam01" true
    (strBytes "a.jpg") (strBytes "capA/cam01/a.jpg") [] [] c1File.length
    (encodeHeader c1Record ++ (send_file_payload c1File).wire)
    (send_file_payload c1File).wire hparse hle
  rw [hfp, hcontent, hpart] at hstep
  refine ⟨?_, ?_, ?_, ?_, ?_⟩
  · rw [hsend]
  · rw [hfl]; omega
  · rw [hstep]
  · rw [hstep]
  · intro h
    rw [hstored, hfile] at h
    have := List.append_cancel_left h
    simp at this

end DataTransfer
